import Mathlib

/-!
tcpkv: wire message codec, manifest topology and closest-block routing.

A shallow embedding of protocol/message.go and store/manifest.go.

Conventions of the embedding:
* a Go `byte` is a `Nat` (its range, `< 256`, is stated where it matters);
  a `[]byte` and a `string` are `List Nat`; a nil slice and an empty slice
  are both `[]` (the code only ever takes `len` of them or hands them to a
  writer, so it cannot tell them apart);
* `uint16` and `uint64` are `Nat` with explicit `% 2^16` and `% 2^64` at the
  conversions, the 64-bit `int` of Go is `Int`;
* an `io.Writer` or `io.Reader` is a transition function on an explicit
  state; the byte count `n` that Go returns next to the error is the length
  of the delivered data (the code discards it with `_`);
* a Go map is an association list whose order is one possible `range` order.
-/

namespace Tcpkv

/-! ## Definitions: Go environment (errors, writers, readers) -/

/-- Go `error` values that a reader or a writer may return. -/
inductive IOError where
  | EOF : IOError
  | other : Nat → IOError
  deriving DecidableEq, Repr

/-- Outcome of one `w.Write(p)`: the error (`none` is `nil`) and the next sink state. -/
structure WriteResult (σ : Type) where
  err : Option IOError
  next : σ

/-- An `io.Writer` over sink state `σ`: `w s p` is the call `Write(p)` in state `s`. -/
abbrev Writer (σ : Type) := σ → List Nat → WriteResult σ

/-- Outcome of one `r.Read(p)`: the bytes delivered into the front of `p`
(`n` is their number), the error and the next source state. -/
structure ReadResult (σ : Type) where
  data : List Nat
  err : Option IOError
  next : σ

/-- An `io.Reader` over source state `σ`: `r s n` is the call `Read(p)` with
`len(p) = n` in state `s`. -/
abbrev Reader (σ : Type) := σ → Nat → ReadResult σ

/-- Contents of the buffer `buf` after a read delivered `data` into it: the
delivered bytes overwrite the front, the rest of the buffer keeps what it
held, and the buffer keeps its length. -/
def fillBuf (buf data : List Nat) : List Nat :=
  (data ++ buf.drop data.length).take buf.length

/-- Sink in the manner of `bytes.Buffer`: every write is appended in full and succeeds. -/
def bufferWriter : Writer (List Nat) :=
  fun s p => { err := none, next := s ++ p }

/-- Source in the manner of `bytes.Reader`: at the end of the data a read
returns `0, io.EOF`; otherwise it copies as many bytes as fit and returns no
error (also when fewer than `len(p)` bytes were left). -/
def bytesReader : Reader (List Nat) :=
  fun s n =>
    if s.length = 0 then { data := [], err := some IOError.EOF, next := s }
    else { data := s.take n, err := none, next := s.drop n }

/-- Wrapper that records every buffer handed to the sink, in call order. -/
def recordingWriter {σ : Type} (w : Writer σ) : Writer (σ × List (List Nat)) :=
  fun s p => { err := (w s.1 p).err, next := ((w s.1 p).next, s.2 ++ [p]) }

/-- Wrapper that records the buffer length of every read request, in call order. -/
def recordingReader {σ : Type} (r : Reader σ) : Reader (σ × List Nat) :=
  fun s n => { data := (r s.1 n).data, err := (r s.1 n).err, next := ((r s.1 n).next, s.2 ++ [n]) }

/-- A sink that accepts every write: no write fails and each one appends its
whole buffer to the sink's contents. -/
def Accepts {σ : Type} (w : Writer σ) (contents : σ → List Nat) : Prop :=
  ∀ s p, (w s p).err = none ∧ contents (w s p).next = contents s ++ p

/-- A source that serves its remaining bytes `rest s`, filling the whole
buffer of every non-empty read request that the remaining bytes can fill. -/
def Serves {σ : Type} (r : Reader σ) (rest : σ → List Nat) : Prop :=
  ∀ s n, 0 < n → n ≤ (rest s).length →
    (r s n).data = (rest s).take n ∧ (r s n).err = none ∧ rest (r s n).next = (rest s).drop n

/-! ## encoding/binary, big endian -/

/-- Go `binary.BigEndian.PutUint16` on a `uint16` value `v`. -/
def putUint16 (v : Nat) : List Nat :=
  [v / 256 % 256, v % 256]

/-- Go `binary.BigEndian.Uint16` on a 2-byte slice. -/
def uint16 (b : List Nat) : Nat :=
  b.getD 1 0 + b.getD 0 0 * 256

/-- Go `binary.BigEndian.PutUint64` on a `uint64` value `v`. -/
def putUint64 (v : Nat) : List Nat :=
  [v / 2 ^ 56 % 256, v / 2 ^ 48 % 256, v / 2 ^ 40 % 256, v / 2 ^ 32 % 256,
   v / 2 ^ 24 % 256, v / 2 ^ 16 % 256, v / 2 ^ 8 % 256, v % 256]

/-- Go `binary.BigEndian.Uint64` on an 8-byte slice. -/
def uint64 (b : List Nat) : Nat :=
  b.getD 7 0 + b.getD 6 0 * 2 ^ 8 + b.getD 5 0 * 2 ^ 16 + b.getD 4 0 * 2 ^ 24 +
  b.getD 3 0 * 2 ^ 32 + b.getD 2 0 * 2 ^ 40 + b.getD 1 0 * 2 ^ 48 + b.getD 0 0 * 2 ^ 56

/-- Go conversion `int(v)` of a `uint64` on a 64-bit platform (two's complement). -/
def intOfUint64 (v : Nat) : Int :=
  if v % 2 ^ 64 < 2 ^ 63 then ((v % 2 ^ 64 : Nat) : Int) else ((v % 2 ^ 64 : Nat) : Int) - 2 ^ 64

/-- Go `b[lo:hi]`. -/
def slice (b : List Nat) (lo hi : Nat) : List Nat :=
  (b.take hi).drop lo

/-- Go `copy(dst[lo:hi], src)`: overwrites `min (hi - lo) (len src)` bytes of `dst` from `lo` on. -/
def copyInto (dst : List Nat) (lo hi : Nat) (src : List Nat) : List Nat :=
  dst.take lo ++ fillBuf (slice dst lo hi) src ++ dst.drop hi

/-! ## protocol/message.go -/

/-- Go `protocol.Message`. -/
structure Message where
  Op : Nat
  Status : Nat
  Expires : Nat
  Key : List Nat
  Value : List Nat
  deriving DecidableEq, Repr

/-- Go `MSG_HEADER_LEN`. -/
def MSG_HEADER_LEN : Nat := 20

/-- The zero value of `Message` (a fresh message). -/
def Message.zero : Message :=
  { Op := 0, Status := 0, Expires := 0, Key := [], Value := [] }

/-- Ranges that the Go types give the fields: `byte`, `uint64`, and lengths that fit an `int`. -/
def Message.WellTyped (m : Message) : Prop :=
  m.Op < 256 ∧ m.Status < 256 ∧ m.Expires < 2 ^ 64 ∧
  m.Key.length < 2 ^ 63 ∧ m.Value.length < 2 ^ 63

instance (m : Message) : Decidable m.WellTyped :=
  inferInstanceAs (Decidable (m.Op < 256 ∧ m.Status < 256 ∧ m.Expires < 2 ^ 64 ∧
    m.Key.length < 2 ^ 63 ∧ m.Value.length < 2 ^ 63))

/-- Go `(*Message).serializeHeader`. -/
def Message.serializeHeader (m : Message) : List Nat :=
  let b := List.replicate MSG_HEADER_LEN 0
  let b := b.set 0 m.Op
  let b := b.set 1 m.Status
  let keyLen := m.Key.length
  let b :=
    if keyLen > 0 then
      let bKeyLen := putUint16 (keyLen % 2 ^ 16)
      (b.set 2 (bKeyLen.getD 0 0)).set 3 (bKeyLen.getD 1 0)
    else b
  let b8 := List.replicate 8 0
  let valLen := m.Value.length
  let bb8 :=
    if valLen > 0 then
      let b8 := fillBuf b8 (putUint64 (valLen % 2 ^ 64))
      (copyInto b 4 12 b8, b8)
    else (b, b8)
  let b := bb8.1
  let b8 := bb8.2
  let b :=
    if m.Expires > 0 then
      let b8 := fillBuf b8 (putUint64 m.Expires)
      copyInto b 12 20 b8
    else b
  b

/-- Go `(*Message).deserializeHeader`: the message after the call, and the two returned lengths. -/
def Message.deserializeHeader (m : Message) (b : List Nat) : Message × Int × Int :=
  if b.length ≠ MSG_HEADER_LEN then (m, 0, 0)
  else
    let m := { m with Op := b.getD 0 0 }
    let m := { m with Status := b.getD 1 0 }
    let keyLen : Int := ((uint16 (slice b 2 4) : Nat) : Int)
    let valLen : Int := intOfUint64 (uint64 (slice b 4 12))
    let m := { m with Expires := uint64 (slice b 12 20) }
    (m, keyLen, valLen)

/-- Outcome of `Message.Write`: the returned error and the sink state. -/
structure WriteOutcome (σ : Type) where
  err : Option IOError
  sink : σ

/-- Go `(*Message).Write`. -/
def Message.Write {σ : Type} (m : Message) (w : Writer σ) (s : σ) : WriteOutcome σ :=
  let header := m.serializeHeader
  let r1 := w s header
  match r1.err with
  | some e => { err := some e, sink := r1.next }
  | none =>
    let r2 := w r1.next m.Key
    match r2.err with
    | some e => { err := some e, sink := r2.next }
    | none =>
      let r3 := w r2.next m.Value
      { err := r3.err, sink := r3.next }

/-- Outcome of `Message.Read`: the returned error, the message and the source state. -/
structure ReadOutcome (σ : Type) where
  err : Option IOError
  msg : Message
  src : σ

/-- Tail of `(*Message).Read` (the `if valLen > 0` block and the final `return err`),
entered with `err == nil`, on the runs in which `make([]byte, valLen)` grants the
buffer; the run in which it panics is added by `Message.readValueAlloc`. -/
def Message.readValue {σ : Type} (m : Message) (r : Reader σ) (s : σ) (valLen : Int) :
    ReadOutcome σ :=
  if valLen > 0 then
    let value := List.replicate valLen.toNat 0
    let r3 := r s value.length
    { err := r3.err, msg := { m with Value := fillBuf value r3.data }, src := r3.next }
  else { err := none, msg := m, src := s }

/-- Go `(*Message).Read`, on the runs in which every `make` grants its buffer (as it
does for the 20 header bytes, for a key of at most 65535 bytes, and for a value no
longer than one that exists); `Message.ReadAlloc` adds the panic of `make` on a
length beyond the allocation limit. -/
def Message.Read {σ : Type} (m : Message) (r : Reader σ) (s : σ) : ReadOutcome σ :=
  let header := List.replicate MSG_HEADER_LEN 0
  let r1 := r s header.length
  let header := fillBuf header r1.data
  match r1.err with
  | some e => { err := some e, msg := m, src := r1.next }
  | none =>
    let d := m.deserializeHeader header
    let m := d.1
    let keyLen := d.2.1
    let valLen := d.2.2
    if keyLen > 0 then
      let keyBytes := List.replicate keyLen.toNat 0
      let r2 := r r1.next keyBytes.length
      let keyBytes := fillBuf keyBytes r2.data
      match r2.err with
      | some e => { err := some e, msg := m, src := r2.next }
      | none => Message.readValue { m with Key := keyBytes } r r2.next valLen
    else Message.readValue m r r1.next valLen

/-! ## store -/

/-- A Go `map[uint64]V`: at most one entry per key; the order of the list is
one order in which `range` may visit the entries. -/
abbrev GoMap (V : Type) := List (Nat × V)

/-- Go `m[k] = v`: replaces the value of an existing entry, adds a new entry otherwise. -/
def GoMap.put {V : Type} : GoMap V → Nat → V → GoMap V
  | [], k, v => [(k, v)]
  | (k0, v0) :: rest, k, v =>
    if k0 = k then (k, v) :: rest else (k0, v0) :: GoMap.put rest k v

/-- Go `store.Slot`, as far as the sources show it: the stored value. -/
structure Slot where
  Value : List Nat
  deriving DecidableEq, Repr

/-- Go `store.Block`: its Identifier and its slots by slot key. -/
structure Block where
  Id : List Nat
  Slots : List (List Nat × Slot)
  deriving DecidableEq, Repr

/-- Go `store.Part`: its Identifier and its blocks by numeric key. -/
structure Part where
  Id : List Nat
  Blocks : GoMap Block
  deriving DecidableEq, Repr

/-- Go `store.Store`: the directory and the parts by numeric key. -/
structure Store where
  Dir : List Nat
  Parts : GoMap Part
  deriving DecidableEq, Repr

/-- Modelled from the spec: `NewBlock(id)`, whose source is not part of the
files at hand, gives a Block with the Identifier and an empty slot mapping. -/
def NewBlock (id : List Nat) : Block :=
  { Id := id, Slots := [] }

/-- Modelled from the spec: `NewPart(id)`, whose source is not part of the
files at hand, gives a Part with the Identifier and an empty block mapping. -/
def NewPart (id : List Nat) : Part :=
  { Id := id, Blocks := [] }

/-- Go `protocol.BlockManifest`. -/
structure BlockManifest where
  BlockId : List Nat
  Hash : List Nat
  deriving DecidableEq, Repr

/-- Go `protocol.PartManifest`. -/
structure PartManifest where
  PartId : List Nat
  Blocks : List BlockManifest
  deriving DecidableEq, Repr

/-- Go `protocol.Manifest`. -/
abbrev Manifest := List PartManifest

/-- Go `store.PartConfig`. -/
structure PartConfig where
  Count : Int
  Persist : Bool
  WritePeriod : Int
  deriving DecidableEq, Repr

/-- Go `(*Store).getManifest`; `checksum` stands for `Block.Checksum`. -/
def Store.getManifest (checksum : Block → List Nat) (s : Store) : Manifest :=
  s.Parts.foldl
    (fun manifest kp =>
      let part := kp.2
      let partManifest : PartManifest := { PartId := part.Id, Blocks := [] }
      let partManifest :=
        part.Blocks.foldl
          (fun (pm : PartManifest) kb =>
            let block := kb.2
            let blockManifest : BlockManifest := { BlockId := block.Id, Hash := checksum block }
            { pm with Blocks := pm.Blocks ++ [blockManifest] })
          partManifest
      manifest ++ [partManifest])
    []

/-- The part that the manifest-present branch of `EnsureManifest` builds from one
`partManifest` (`NewPart` and the loop over `partManifest.Blocks`). -/
def loadPart (getNumber : List Nat → Nat) (partManifest : PartManifest) : Part :=
  let part := NewPart partManifest.PartId
  partManifest.Blocks.foldl
    (fun (part : Part) block =>
      { part with Blocks := part.Blocks.put (getNumber block.BlockId) (NewBlock block.BlockId) })
    part

/-- The manifest-present loop of `EnsureManifest` (`for _, partManifest := range manifest`). -/
def Store.loadManifest (getNumber : List Nat → Nat) (s : Store) (manifest : Manifest) : Store :=
  manifest.foldl
    (fun (s : Store) partManifest =>
      let part := loadPart getNumber partManifest
      { s with Parts := s.Parts.put (getNumber part.Id) part })
    s

/-- The block loop of the fresh branch (`for b := 0; b < cfg.Count; b++`), with
`n` iterations left; the error of `rand.Read` is not looked at. -/
def genBlocks {ρ : Type} (getNumber : List Nat → Nat) (idLen : Nat) (rand : Reader ρ) :
    Nat → Part → ρ → Part × ρ
  | 0, part, g => (part, g)
  | n + 1, part, g =>
    let blockId := List.replicate idLen 0
    let rr := rand g blockId.length
    let blockId := fillBuf blockId rr.data
    let part := { part with Blocks := part.Blocks.put (getNumber blockId) (NewBlock blockId) }
    genBlocks getNumber idLen rand n part rr.next

/-- The part loop of the fresh branch (`for p := 0; p < cfg.Count; p++`), with
`n` iterations left; `none` is the panic on a failed `rand.Read`. -/
def genParts {ρ : Type} (getNumber : List Nat → Nat) (idLen : Nat) (rand : Reader ρ)
    (count : Nat) : Nat → Store → ρ → Option (Store × ρ)
  | 0, s, g => some (s, g)
  | n + 1, s, g =>
    let partId := List.replicate idLen 0
    let rr := rand g partId.length
    let partId := fillBuf partId rr.data
    match rr.err with
    | some _ => none
    | none =>
      let part := NewPart partId
      let pg := genBlocks getNumber idLen rand count part rr.next
      let s := { s with Parts := s.Parts.put (getNumber partId) pg.1 }
      genParts getNumber idLen rand count n s pg.2

/-- The manifest file as `EnsureManifest` meets it. -/
inductive ManifestFile where
  | absent : ManifestFile
  | undecodable : ManifestFile
  | holds : Manifest → ManifestFile
  deriving DecidableEq, Repr

/-- How a call of `EnsureManifest` ends. -/
inductive EnsureResult (ρ : Type) where
  | panicked : EnsureResult ρ
  | returned (s : Store) (written : Option Manifest) (g : ρ) : EnsureResult ρ

/-- Go `(*Store).EnsureManifest`. `file` is what `os.Open` finds at the manifest
path, `canCreate` whether `os.Create` succeeds there, `rand` with state `g` the
random source; `getNumber`, `checksum` and `idLen` stand for `getNumber`,
`Block.Checksum` and `util.ID_LEN`. The result carries the store, the manifest
written to a new file (if any) and the state of the random source. -/
def Store.EnsureManifest {ρ : Type} (getNumber : List Nat → Nat) (checksum : Block → List Nat)
    (idLen : Nat) (rand : Reader ρ) (s : Store) (cfg : PartConfig) (file : ManifestFile)
    (canCreate : Bool) (g : ρ) : EnsureResult ρ :=
  if !cfg.Persist then EnsureResult.returned s none g
  else
    let s := { s with Parts := [] }
    match file with
    | ManifestFile.absent =>
      match genParts getNumber idLen rand cfg.Count.toNat cfg.Count.toNat s g with
      | none => EnsureResult.panicked
      | some (s, g) =>
        if !canCreate then EnsureResult.panicked
        else EnsureResult.returned s (some (s.getManifest checksum)) g
    | ManifestFile.undecodable => EnsureResult.panicked
    | ManifestFile.holds manifest =>
      EnsureResult.returned (s.loadManifest getNumber manifest) none g

/-- Modelled from the spec: `getNumber`, whose source is not part of the files
at hand, is a deterministic projection of an Identifier into a 64-bit integer;
here the big-endian value of its first eight bytes. -/
def getNumber (id : List Nat) : Nat :=
  (id.take 8).foldl (fun acc b => (acc * 256 + b % 256) % 2 ^ 64) 0

/-! ## routing -/

/-- Modelled from the spec: the proximity of a fingerprint and an Identifier is
their byte-wise XOR. -/
def xorDistance (f id : List Nat) : List Nat :=
  List.zipWith Nat.xor f id

/-- Lexicographic "smaller than" on byte sequences. -/
def lexLt : List Nat → List Nat → Bool
  | [], [] => false
  | [], _ :: _ => true
  | _ :: _, [] => false
  | a :: as, b :: bs => decide (a < b) || (decide (a = b) && lexLt as bs)

/-- Modelled from the spec: `a` wins over `b` for fingerprint `f` when its XOR
distance is smaller, or the distances tie and its Identifier is
lexicographically smaller. -/
def closer (f : List Nat) (a b : Block) : Bool :=
  lexLt (xorDistance f a.Id) (xorDistance f b.Id) ||
    (decide (xorDistance f a.Id = xorDistance f b.Id) && lexLt a.Id b.Id)

/-- Modelled from the spec: one step of the pass of `getClosestBlock`; the first
block met is kept, a later one replaces the kept one only when it wins over it. -/
def closestStep (f : List Nat) (best : Option Block) (kb : Nat × Block) : Option Block :=
  match best with
  | none => some kb.2
  | some b => if closer f kb.2 b then some kb.2 else some b

/-- Modelled from the spec: `Part.getClosestBlock(fingerprint)`, whose source is
not part of the files at hand: one pass over the Part's blocks, in the order
the map yields them, that keeps the closest block met so far; `none` only for a
Part without blocks. -/
def Part.getClosestBlock (p : Part) (f : List Nat) : Option Block :=
  p.Blocks.foldl (closestStep f) none


/-- Identifiers of the parts of a store. -/
def Store.partIds (s : Store) : List (List Nat) :=
  s.Parts.map (fun kp => kp.2.Id)

/-- Identifiers of the blocks of a part. -/
def Part.blockIds (p : Part) : List (List Nat) :=
  p.Blocks.map (fun kb => kb.2.Id)

/-- Manifest entry of one part: its Identifier and one entry per block. -/
def partManifestOf (checksum : Block → List Nat) (p : Part) : PartManifest :=
  { PartId := p.Id,
    Blocks := p.Blocks.map (fun kb => { BlockId := kb.2.Id, Hash := checksum kb.2 }) }

/-- The empty shell that reloading makes of a part: same Identifier, and for each block
an empty block with the same Identifier, keyed by its number. -/
def shellOf (gn : List Nat → Nat) (p : Part) : Part :=
  { Id := p.Id, Blocks := p.Blocks.map (fun kb => (gn kb.2.Id, NewBlock kb.2.Id)) }


/-! ## Sample data -/

/-- A request with key "abc", a five-byte value and no expiry. -/
def sampleMessage : Message :=
  { Op := 1, Status := 0, Expires := 0, Key := [97, 98, 99], Value := [1, 2, 3, 4, 5] }

/-- The 28-byte wire image of `sampleMessage`. -/
def sampleStream : List Nat :=
  [0x01, 0x00, 0x00, 0x03, 0, 0, 0, 0, 0, 0, 0, 0x05, 0, 0, 0, 0, 0, 0, 0, 0] ++
    [97, 98, 99] ++ [1, 2, 3, 4, 5]

/-- A lone byte: less than a header. -/
def shortHeaderStream : List Nat := [7]

/-- A full header announcing a three-byte key and no value, followed by one key byte only. -/
def shortKeyStream : List Nat :=
  [1, 0, 0, 3, 0, 0, 0, 0, 0, 0, 0, 0, 0, 0, 0, 0, 0, 0, 0, 0] ++ [97]

/-- A full header announcing a three-byte key and no value, with nothing after it. -/
def headerOnlyStream : List Nat :=
  [1, 0, 0, 3, 0, 0, 0, 0, 0, 0, 0, 0, 0, 0, 0, 0, 0, 0, 0, 0]

/-- A part with three blocks. -/
def samplePart : Part :=
  { Id := [9, 9],
    Blocks := [(getNumber [1, 2], NewBlock [1, 2]), (getNumber [3, 4], NewBlock [3, 4]),
      (getNumber [7, 7], NewBlock [7, 7])] }

/-- The part `samplePart` with its block map visited in another order. -/
def samplePartReordered : Part :=
  { Id := [9, 9],
    Blocks := [(getNumber [7, 7], NewBlock [7, 7]), (getNumber [1, 2], NewBlock [1, 2]),
      (getNumber [3, 4], NewBlock [3, 4])] }

/-- A store of two parts, keyed by the numbers of their Identifiers. -/
def sampleStore : Store :=
  { Dir := [],
    Parts := [(getNumber [9, 9], samplePart),
      (getNumber [5], { Id := [5], Blocks := [(getNumber [6], NewBlock [6])] })] }

/-- A store left over from elsewhere, for EnsureManifest to overwrite. -/
def twinStore : Store :=
  { Dir := [],
    Parts := [(1, { Id := [1], Blocks := [(10, NewBlock [10])] }),
      (2, { Id := [1], Blocks := [(20, NewBlock [20])] })] }

/-- A configuration with persistence enabled. -/
def persistConfig : PartConfig :=
  { Count := 2, Persist := true, WritePeriod := 10 }

/-- A random source that is never asked: every read fails. -/
def noRand : Reader Unit :=
  fun _ _ => { data := [], err := some (IOError.other 0), next := () }

/-- The store that `EnsureManifest` leaves, if it returns. -/
def EnsureResult.store {ρ : Type} : EnsureResult ρ → Option Store
  | EnsureResult.panicked => none
  | EnsureResult.returned s _ _ => some s

/-- A configuration with persistence disabled. -/
def noPersistConfig : PartConfig :=
  { Count := 2, Persist := false, WritePeriod := 10 }

/-- A configuration asking for one part with one block, persistence enabled. -/
def oneByOneConfig : PartConfig :=
  { Count := 1, Persist := true, WritePeriod := 10 }

/-- A random source that fills the first buffer it is given with ones and fails,
delivering nothing, on every later read; its state counts the reads. -/
def onceRand : Reader Nat :=
  fun g n =>
    if g = 0 then { data := List.replicate n 1, err := none, next := 1 }
    else { data := [], err := some (IOError.other 1), next := g + 1 }

/-- The manifest that `EnsureManifest` wrote to a new file, if it returned and wrote one. -/
def EnsureResult.written {ρ : Type} : EnsureResult ρ → Option Manifest
  | EnsureResult.panicked => none
  | EnsureResult.returned _ written _ => written

/-- Whether `EnsureManifest` panicked. -/
def EnsureResult.isPanic {ρ : Type} : EnsureResult ρ → Bool
  | EnsureResult.panicked => true
  | EnsureResult.returned _ _ _ => false

/-- The header buffer that `Read` hands to `deserializeHeader`: twenty zero bytes
overwritten by what the header read delivered. -/
def headerBuf {σ : Type} (r : Reader σ) (s : σ) : List Nat :=
  fillBuf (List.replicate MSG_HEADER_LEN 0) (r s MSG_HEADER_LEN).data

/-- A full header announcing no key and a five-byte value, with nothing after it. -/
def valueOnlyHeaderStream : List Nat :=
  [2, 0, 0, 0, 0, 0, 0, 0, 0, 0, 0, 5, 0, 0, 0, 0, 0, 0, 0, 0]

/-- A message with an empty key. -/
def emptyKeyMessage : Message :=
  { Op := 2, Status := 0, Expires := 0, Key := [], Value := [9] }

/-- A header announcing a three-byte key and a value of 2^64 - 1 bytes. -/
def oversizedHeader : List Nat :=
  [1, 0, 0, 3, 255, 255, 255, 255, 255, 255, 255, 255, 0, 0, 0, 0, 0, 0, 0, 0]

/-- The header `oversizedHeader` followed by the three key bytes "xyz". -/
def oversizedStream : List Nat :=
  oversizedHeader ++ [120, 121, 122]

/-- A message whose key is 65537 bytes long (one byte 8, then 65536 bytes 7). -/
def longKeyMessage : Message :=
  { Op := 1, Status := 0, Expires := 0, Key := [8, 7, 7] ++ List.replicate 65534 7,
    Value := [1, 2] }

/-- The Identifier that one read of the random source leaves in a fresh buffer of
`idLen` zero bytes. -/
def drawId {ρ : Type} (idLen : Nat) (rand : Reader ρ) (g : ρ) : List Nat :=
  fillBuf (List.replicate idLen 0) (rand g idLen).data

/-- The Identifiers of `n` successive reads of the random source, and its state after them. -/
def drawBlockIds {ρ : Type} (idLen : Nat) (rand : Reader ρ) : Nat → ρ → List (List Nat) × ρ
  | 0, g => ([], g)
  | n + 1, g =>
    let rest := drawBlockIds idLen rand n (rand g idLen).next
    (drawId idLen rand g :: rest.1, rest.2)

/-- The Identifiers generated for `n` parts of `count` blocks each, in the order of
generation (for each part its own Identifier, then those of its blocks), and the state
of the random source after them. -/
def drawIds {ρ : Type} (idLen : Nat) (rand : Reader ρ) (count : Nat) :
    Nat → ρ → List (List Nat × List (List Nat)) × ρ
  | 0, g => ([], g)
  | n + 1, g =>
    let blocks := drawBlockIds idLen rand count (rand g idLen).next
    let rest := drawIds idLen rand count n blocks.2
    ((drawId idLen rand g, blocks.1) :: rest.1, rest.2)

/-- Whether the reads that generate the `n` part Identifiers return no error (the
reads for block Identifiers lie between them; their errors are not looked at). -/
def partReadsOk {ρ : Type} (idLen : Nat) (rand : Reader ρ) (count : Nat) : Nat → ρ → Bool
  | 0, _ => true
  | n + 1, g =>
    (rand g idLen).err.isNone &&
      partReadsOk idLen rand count n (drawBlockIds idLen rand count (rand g idLen).next).2

/-- The part with Identifier `ids.1` holding one empty block per Identifier of `ids.2`,
each keyed by its number. -/
def freshPart (gn : List Nat → Nat) (ids : List Nat × List (List Nat)) : Part :=
  { Id := ids.1, Blocks := ids.2.map (fun b => (gn b, NewBlock b)) }

/-- A random source that counts up: the k-th read fills the buffer with the byte k. -/
def countingRand : Reader Nat :=
  fun g n => { data := List.replicate n (g + 1), err := none, next := g + 1 }

/-! ## Read with the allocation limit of make -/

/-- Go `make([]byte, n)` under an allocation limit: it panics (`none`) for a negative
length and for one beyond `allocLimit` (makeslice: len out of range), and gives `n`
zero bytes otherwise. -/
def makeBytes (allocLimit : Nat) (n : Int) : Option (List Nat) :=
  if n < 0 ∨ (allocLimit : Int) < n then none else some (List.replicate n.toNat 0)

/-- How a call of `Read` ends: it returns, or `make` panics, leaving the message and
the source as they are at that point. -/
inductive ReadRun (σ : Type) where
  | panicked (msg : Message) (src : σ) : ReadRun σ
  | returned (out : ReadOutcome σ) : ReadRun σ

/-- Whether the call of `Read` ended in a panic. -/
def ReadRun.isPanic {σ : Type} : ReadRun σ → Bool
  | ReadRun.panicked _ _ => true
  | ReadRun.returned _ => false

/-- Tail of `(*Message).Read` (the `if valLen > 0` block and the final `return err`),
entered with `err == nil`, with the panic of `make([]byte, valLen)`. -/
def Message.readValueAlloc {σ : Type} (allocLimit : Nat) (m : Message) (r : Reader σ) (s : σ)
    (valLen : Int) : ReadRun σ :=
  if valLen > 0 then
    match makeBytes allocLimit valLen with
    | none => ReadRun.panicked m s
    | some value =>
      let r3 := r s value.length
      ReadRun.returned
        { err := r3.err, msg := { m with Value := fillBuf value r3.data }, src := r3.next }
  else ReadRun.returned { err := none, msg := m, src := s }

/-- Go `(*Message).Read` with the panics of its three `make` calls. -/
def Message.ReadAlloc {σ : Type} (allocLimit : Nat) (m : Message) (r : Reader σ) (s : σ) :
    ReadRun σ :=
  match makeBytes allocLimit MSG_HEADER_LEN with
  | none => ReadRun.panicked m s
  | some header =>
    let r1 := r s header.length
    let header := fillBuf header r1.data
    match r1.err with
    | some e => ReadRun.returned { err := some e, msg := m, src := r1.next }
    | none =>
      let d := m.deserializeHeader header
      let m := d.1
      let keyLen := d.2.1
      let valLen := d.2.2
      if keyLen > 0 then
        match makeBytes allocLimit keyLen with
        | none => ReadRun.panicked m r1.next
        | some keyBytes =>
          let r2 := r r1.next keyBytes.length
          let keyBytes := fillBuf keyBytes r2.data
          match r2.err with
          | some e => ReadRun.returned { err := some e, msg := m, src := r2.next }
          | none => Message.readValueAlloc allocLimit { m with Key := keyBytes } r r2.next valLen
      else Message.readValueAlloc allocLimit m r r1.next valLen

/-- The allocation limit of the Go runtime on 64-bit platforms with 48-bit heap
addresses (`maxAlloc`). -/
def maxAlloc : Nat := 2 ^ 48

/-- A full header announcing no key and a value of 2^62 bytes, followed by one byte. -/
def hugeValueStream : List Nat :=
  [2, 0, 0, 0, 64, 0, 0, 0, 0, 0, 0, 0, 0, 0, 0, 0, 0, 0, 0, 0] ++ [9]

/-! ## Keying of the store -/

/-- The keying of the maps of a store: a Go map holds one entry per key, and every
insertion in the sources puts a Part or a Block under `getNumber` of its Identifier
(manifest.go lines 43, 45, 65, 67; part_test.go line 22). -/
def Store.WellKeyed (gn : List Nat → Nat) (s : Store) : Prop :=
  (s.Parts.map Prod.fst).Nodup ∧
    ∀ kp ∈ s.Parts, kp.1 = gn kp.2.Id ∧ (kp.2.Blocks.map Prod.fst).Nodup ∧
      ∀ kb ∈ kp.2.Blocks, kb.1 = gn kb.2.Id

instance (gn : List Nat → Nat) (s : Store) : Decidable (s.WellKeyed gn) :=
  inferInstanceAs (Decidable ((s.Parts.map Prod.fst).Nodup ∧
    ∀ kp ∈ s.Parts, kp.1 = gn kp.2.Id ∧ (kp.2.Blocks.map Prod.fst).Nodup ∧
      ∀ kb ∈ kp.2.Blocks, kb.1 = gn kb.2.Id))

/-! ## Lemmas -/

theorem putUint16_zero : putUint16 0 = [0, 0] := by decide

theorem putUint64_zero : putUint64 0 = [0, 0, 0, 0, 0, 0, 0, 0] := by decide

theorem putUint64_length (v : Nat) : (putUint64 v).length = 8 := by simp [putUint64]

theorem fillBuf_of_length_eq (buf data : List Nat) (h : data.length = buf.length) :
    fillBuf buf data = data := by
  unfold fillBuf
  rw [List.drop_of_length_le (by omega)]
  simp [h.symm]

theorem fillBuf_length (buf data : List Nat) : (fillBuf buf data).length = buf.length := by
  unfold fillBuf
  simp
  omega

/-- Closed form of the header: the five fields laid out one after the other. -/
theorem serializeHeader_eq (m : Message) :
    m.serializeHeader =
      [m.Op, m.Status] ++ putUint16 (m.Key.length % 2 ^ 16) ++
        putUint64 (m.Value.length % 2 ^ 64) ++ putUint64 m.Expires := by
  unfold Message.serializeHeader
  by_cases hk : m.Key.length > 0 <;> by_cases hv : m.Value.length > 0 <;>
    by_cases he : m.Expires > 0 <;>
    simp [hk, hv, he, MSG_HEADER_LEN, copyInto, slice, fillBuf, putUint16, putUint64,
      List.replicate]
  all_goals omega

theorem serializeHeader_length (m : Message) : m.serializeHeader.length = 20 := by
  rw [serializeHeader_eq]
  simp [putUint16, putUint64]

theorem uint16_putUint16 (v : Nat) (h : v < 2 ^ 16) : uint16 (putUint16 v) = v := by
  simp [uint16, putUint16]
  omega

theorem uint64_putUint64 (v : Nat) (h : v < 2 ^ 64) : uint64 (putUint64 v) = v := by
  simp [uint64, putUint64]
  omega

theorem intOfUint64_of_lt (v : Nat) (h : v < 2 ^ 63) : intOfUint64 v = (v : Int) := by
  unfold intOfUint64
  have h1 : v % 2 ^ 64 = v := Nat.mod_eq_of_lt (by omega)
  rw [h1, if_pos h]

/-- Decoding an encoded header: the three fixed fields and the two lengths as written. -/
theorem deserializeHeader_serializeHeader (m m0 : Message) :
    m0.deserializeHeader m.serializeHeader =
      ({ m0 with Op := m.Op, Status := m.Status, Expires := m.Expires % 2 ^ 64 },
        ((m.Key.length % 2 ^ 16 : Nat) : Int), intOfUint64 (m.Value.length % 2 ^ 64)) := by
  have hlen := serializeHeader_length m
  unfold Message.deserializeHeader
  rw [if_neg (by simp [hlen, MSG_HEADER_LEN])]
  have h2 : slice m.serializeHeader 2 4 = putUint16 (m.Key.length % 2 ^ 16) := by
    rw [serializeHeader_eq]; simp [slice, putUint16, putUint64]
  have h4 : slice m.serializeHeader 4 12 = putUint64 (m.Value.length % 2 ^ 64) := by
    rw [serializeHeader_eq]; simp [slice, putUint16, putUint64]
  have h12 : slice m.serializeHeader 12 20 = putUint64 m.Expires := by
    rw [serializeHeader_eq]; simp [slice, putUint16, putUint64]
  have h0 : m.serializeHeader.getD 0 0 = m.Op := by
    rw [serializeHeader_eq]; simp
  have h1 : m.serializeHeader.getD 1 0 = m.Status := by
    rw [serializeHeader_eq]; simp
  have hk : uint16 (putUint16 (m.Key.length % 2 ^ 16)) = m.Key.length % 2 ^ 16 :=
    uint16_putUint16 _ (Nat.mod_lt _ (by norm_num))
  have hv : uint64 (putUint64 (m.Value.length % 2 ^ 64)) = m.Value.length % 2 ^ 64 :=
    uint64_putUint64 _ (Nat.mod_lt _ (by norm_num))
  have he : uint64 (putUint64 m.Expires) = m.Expires % 2 ^ 64 := by
    simp [uint64, putUint64]
    omega
  simp only [h0, h1, h2, h4, h12, hk, hv, he]

/-- What `Write` leaves in a sink that accepts every write. -/
theorem Write_of_accepts {σ : Type} (m : Message) (w : Writer σ) (contents : σ → List Nat)
    (s : σ) (hw : Accepts w contents) :
    (m.Write w s).err = none ∧
      contents (m.Write w s).sink = contents s ++ (m.serializeHeader ++ m.Key ++ m.Value) := by
  have h1 := hw s m.serializeHeader
  have h2 := hw (w s m.serializeHeader).next m.Key
  have h3 := hw (w (w s m.serializeHeader).next m.Key).next m.Value
  unfold Message.Write
  simp only [h1.1, h2.1]
  refine ⟨h3.1, ?_⟩
  rw [h3.2, h2.2, h1.2]
  simp

/-- The value part of `Read` on a source that serves `v` followed by `tail`. -/
theorem readValue_of_serves {σ : Type} (m1 : Message) (r : Reader σ) (rest : σ → List Nat)
    (s : σ) (v tail : List Nat) (hr : Serves r rest) (hrest : rest s = v ++ tail) :
    (m1.readValue r s (v.length : Int)).err = none ∧
      (m1.readValue r s (v.length : Int)).msg =
        { m1 with Value := if v.length > 0 then v else m1.Value } ∧
      rest (m1.readValue r s (v.length : Int)).src = tail := by
  unfold Message.readValue
  by_cases hv : v.length > 0
  · have hpos : ((v.length : Nat) : Int) > 0 := by omega
    have h3 := hr s v.length hv (by rw [hrest]; simp)
    simp only [hrest, List.take_left, List.drop_left] at h3
    simp only [hpos, if_true, hv, Int.toNat_ofNat, List.length_replicate, h3.1, h3.2.1, h3.2.2]
    refine ⟨trivial, ?_, trivial⟩
    rw [fillBuf_of_length_eq _ _ (by simp)]
  · have hnpos : ¬ ((v.length : Nat) : Int) > 0 := by omega
    have hnil : v = [] := List.length_eq_zero.mp (by omega)
    simp only [hnpos, if_false, hv]
    refine ⟨trivial, trivial, ?_⟩
    rw [hrest, hnil]; simp

/-- Reading from a source that serves an encoded message `m` followed by `tail`:
the fixed fields are those of `m`, a non-empty key or value is that of `m`, an
empty one leaves the field of the receiver as it was, and `tail` is what remains. -/
theorem Read_of_serves {σ : Type} (m m0 : Message) (r : Reader σ) (rest : σ → List Nat)
    (t : σ) (tail : List Nat) (ht : m.WellTyped) (hk : m.Key.length ≤ 65535)
    (hr : Serves r rest) (hrest : rest t = m.serializeHeader ++ m.Key ++ m.Value ++ tail) :
    (m0.Read r t).err = none ∧
      (m0.Read r t).msg =
        { Op := m.Op, Status := m.Status, Expires := m.Expires,
          Key := if m.Key.length > 0 then m.Key else m0.Key,
          Value := if m.Value.length > 0 then m.Value else m0.Value } ∧
      rest (m0.Read r t).src = tail := by
  obtain ⟨hop, hst, hex, hkl, hvl⟩ := ht
  have hlen := serializeHeader_length m
  have h1 := hr t 20 (by norm_num) (by rw [hrest]; simp [hlen])
  have hd : (r t 20).data = m.serializeHeader := by
    rw [h1.1, hrest, List.append_assoc, List.append_assoc]; exact List.take_left' hlen
  have hn : rest (r t 20).next = m.Key ++ m.Value ++ tail := by
    rw [h1.2.2, hrest, List.append_assoc, List.append_assoc, List.drop_left' hlen]
    simp
  have hdes := deserializeHeader_serializeHeader m m0
  have hkm : m.Key.length % 2 ^ 16 = m.Key.length := Nat.mod_eq_of_lt (by omega)
  have hvm : m.Value.length % 2 ^ 64 = m.Value.length := Nat.mod_eq_of_lt (by omega)
  have hem : m.Expires % 2 ^ 64 = m.Expires := Nat.mod_eq_of_lt hex
  rw [hkm, hvm, hem, intOfUint64_of_lt _ hvl] at hdes
  have hfill : fillBuf (List.replicate 20 0) m.serializeHeader = m.serializeHeader :=
    fillBuf_of_length_eq _ _ (by simp [hlen])
  unfold Message.Read
  simp only [MSG_HEADER_LEN, List.length_replicate, h1.2.1, hd, hfill, hdes]
  by_cases hkp : m.Key.length > 0
  · have hpos : ((m.Key.length : Nat) : Int) > 0 := by omega
    have h2 := hr (r t 20).next m.Key.length hkp (by rw [hn]; simp)
    simp only [hn, List.append_assoc, List.take_left, List.drop_left] at h2
    simp only [hpos, if_true, hkp, Int.toNat_ofNat, h2.1, h2.2.1]
    rw [fillBuf_of_length_eq _ _ (by simp)]
    have h3 := readValue_of_serves
      { Op := m.Op, Status := m.Status, Expires := m.Expires, Key := m.Key, Value := m0.Value }
      r rest (r (r t 20).next m.Key.length).next m.Value tail hr h2.2.2
    exact h3
  · have hnpos : ¬ ((m.Key.length : Nat) : Int) > 0 := by omega
    have hnil : m.Key = [] := List.length_eq_zero.mp (by omega)
    simp only [hnpos, if_false, hkp]
    have h3 := readValue_of_serves
      { Op := m.Op, Status := m.Status, Expires := m.Expires, Key := m0.Key, Value := m0.Value }
      r rest (r t 20).next m.Value tail hr (by rw [hn, hnil]; simp)
    exact h3

theorem lexLt_irrefl : ∀ a : List Nat, lexLt a a = false
  | [] => rfl
  | x :: xs => by simp [lexLt, lexLt_irrefl xs]

theorem lexLt_trans : ∀ a b c : List Nat, lexLt a b = true → lexLt b c = true → lexLt a c = true
  | [], [], _, h, _ => by simp [lexLt] at h
  | [], _ :: _, [], _, h => by simp [lexLt] at h
  | [], _ :: _, _ :: _, _, _ => by simp [lexLt]
  | _ :: _, [], _, h, _ => by simp [lexLt] at h
  | _ :: _, _ :: _, [], _, h => by simp [lexLt] at h
  | x :: xs, y :: ys, z :: zs, h1, h2 => by
    simp only [lexLt, Bool.or_eq_true, Bool.and_eq_true, decide_eq_true_eq] at h1 h2 ⊢
    rcases h1 with h1 | ⟨h1, h1'⟩
    · rcases h2 with h2 | ⟨h2, _⟩
      · left; omega
      · left; omega
    · rcases h2 with h2 | ⟨h2, h2'⟩
      · left; omega
      · right; exact ⟨by omega, lexLt_trans xs ys zs h1' h2'⟩

theorem lexLt_total : ∀ a b : List Nat, lexLt a b = false → lexLt b a = false → a = b
  | [], [], _, _ => rfl
  | [], _ :: _, h, _ => by simp [lexLt] at h
  | _ :: _, [], _, h => by simp [lexLt] at h
  | x :: xs, y :: ys, h1, h2 => by
    simp only [lexLt, Bool.or_eq_false_iff, Bool.and_eq_false_iff, decide_eq_false_iff_not] at h1 h2
    have hxy : x = y := by omega
    subst hxy
    have h1' : lexLt xs ys = false := by
      rcases h1.2 with h | h
      · exact absurd rfl h
      · exact h
    have h2' : lexLt ys xs = false := by
      rcases h2.2 with h | h
      · exact absurd rfl h
      · exact h
    rw [lexLt_total xs ys h1' h2']

theorem closer_irrefl (f : List Nat) (a : Block) : closer f a a = false := by
  simp [closer, lexLt_irrefl]

theorem closer_trans (f : List Nat) (a b c : Block) (h1 : closer f a b = true)
    (h2 : closer f b c = true) : closer f a c = true := by
  simp only [closer, Bool.or_eq_true, Bool.and_eq_true, decide_eq_true_eq] at h1 h2 ⊢
  rcases h1 with h1 | ⟨h1, h1'⟩
  · rcases h2 with h2 | ⟨h2, _⟩
    · exact Or.inl (lexLt_trans _ _ _ h1 h2)
    · exact Or.inl (h2 ▸ h1)
  · rcases h2 with h2 | ⟨h2, h2'⟩
    · exact Or.inl (h1 ▸ h2)
    · exact Or.inr ⟨h1.trans h2, lexLt_trans _ _ _ h1' h2'⟩

theorem closer_total (f : List Nat) (a b : Block) (h1 : closer f a b = false)
    (h2 : closer f b a = false) : a.Id = b.Id := by
  simp only [closer, Bool.or_eq_false_iff, Bool.and_eq_false_iff, decide_eq_false_iff_not] at h1 h2
  have hd : xorDistance f a.Id = xorDistance f b.Id := lexLt_total _ _ h1.1 h2.1
  have h1' : lexLt a.Id b.Id = false := by
    rcases h1.2 with h | h
    · exact absurd hd h
    · exact h
  have h2' : lexLt b.Id a.Id = false := by
    rcases h2.2 with h | h
    · exact absurd hd.symm h
    · exact h
  exact lexLt_total _ _ h1' h2'

theorem closer_congr_right (f : List Nat) (x a b : Block) (h : a.Id = b.Id) :
    closer f x a = closer f x b := by
  simp [closer, h]

/-- Whoever beats `b` also beats every block that does not beat `b`. -/
theorem closer_of_not_closer (f : List Nat) (x b b0 : Block) (h1 : closer f x b = true)
    (h2 : closer f b0 b = false) : closer f x b0 = true := by
  by_cases h3 : closer f b b0 = true
  · exact closer_trans f x b b0 h1 h3
  · have hid : b.Id = b0.Id := closer_total f b b0 (by simpa using h3) h2
    rw [← closer_congr_right f x b b0 hid]; exact h1

theorem foldl_closestStep (f : List Nat) : ∀ (l : List (Nat × Block)) (b0 : Block),
    ∃ b, l.foldl (closestStep f) (some b0) = some b ∧ (b = b0 ∨ b ∈ l.map Prod.snd) ∧
      closer f b0 b = false ∧ ∀ x ∈ l, closer f x.2 b = false
  | [], b0 => ⟨b0, rfl, Or.inl rfl, closer_irrefl f b0, by simp⟩
  | x :: t, b0 => by
    by_cases hx : closer f x.2 b0 = true
    · obtain ⟨b, hb, hmem, hmin0, hmin⟩ := foldl_closestStep f t x.2
      refine ⟨b, ?_, ?_, ?_, ?_⟩
      · simp [closestStep, hx, hb]
      · rcases hmem with h | h
        · right; simp [h]
        · right; simp only [List.map_cons, List.mem_cons]; exact Or.inr h
      · by_contra hc
        have hc' : closer f b0 b = true := by simpa using hc
        have := closer_trans f x.2 b0 b hx hc'
        rw [hmin0] at this; exact Bool.noConfusion this
      · intro y hy
        rcases List.mem_cons.mp hy with h | h
        · rw [h]; exact hmin0
        · exact hmin y h
    · have hx' : closer f x.2 b0 = false := by simpa using hx
      obtain ⟨b, hb, hmem, hmin0, hmin⟩ := foldl_closestStep f t b0
      refine ⟨b, ?_, ?_, hmin0, ?_⟩
      · simp [closestStep, hx', hb]
      · rcases hmem with h | h
        · exact Or.inl h
        · right; simp only [List.map_cons, List.mem_cons]; exact Or.inr h
      · intro y hy
        rcases List.mem_cons.mp hy with h | h
        · rw [h]
          by_contra hc
          have hc' : closer f x.2 b = true := by simpa using hc
          have := closer_of_not_closer f x.2 b b0 hc' hmin0
          rw [hx'] at this; exact Bool.noConfusion this
        · exact hmin y h

/-- The block that `getClosestBlock` returns is one of the Part's blocks and no
block of the Part beats it. -/
theorem getClosestBlock_spec (p : Part) (f : List Nat) (hne : p.Blocks ≠ []) :
    ∃ b, p.getClosestBlock f = some b ∧ b ∈ p.Blocks.map Prod.snd ∧
      ∀ x ∈ p.Blocks, closer f x.2 b = false := by
  unfold Part.getClosestBlock
  cases hl : p.Blocks with
  | nil => exact absurd hl hne
  | cons x t =>
    obtain ⟨b, hb, hmem, hmin0, hmin⟩ := foldl_closestStep f t x.2
    refine ⟨b, ?_, ?_, ?_⟩
    · simpa [closestStep] using hb
    · rcases hmem with h | h
      · simp [h]
      · simp only [List.map_cons, List.mem_cons]; exact Or.inr h
    · intro y hy
      rcases List.mem_cons.mp hy with h | h
      · rw [h]; exact hmin0
      · exact hmin y h

theorem GoMap.put_fresh {V : Type} : ∀ (m : GoMap V) (k : Nat) (v : V),
    k ∉ m.map Prod.fst → m.put k v = m ++ [(k, v)]
  | [], _, _, _ => rfl
  | (k0, v0) :: rest, k, v, h => by
    simp only [List.map_cons, List.mem_cons, not_or] at h
    have hne : ¬ k0 = k := fun e => h.1 e.symm
    simp [GoMap.put, hne, GoMap.put_fresh rest k v h.2]

theorem foldl_put_fresh {α V : Type} (key : α → Nat) (val : α → V) :
    ∀ (l : List α) (acc : GoMap V), (acc.map Prod.fst ++ l.map key).Nodup →
      l.foldl (fun acc x => acc.put (key x) (val x)) acc = acc ++ l.map (fun x => (key x, val x))
  | [], acc, _ => by simp
  | x :: t, acc, h => by
    have hx : key x ∉ acc.map Prod.fst := by
      intro hmem
      have := (List.nodup_append.mp h).2.2
      exact this hmem (by simp)
    have hnd : ((acc ++ [(key x, val x)]).map Prod.fst ++ t.map key).Nodup := by
      simpa [List.append_assoc] using h
    rw [List.foldl_cons, GoMap.put_fresh acc _ _ hx, foldl_put_fresh key val t _ hnd]
    simp

theorem foldl_blocks_eq (gn : List Nat → Nat) : ∀ (l : List BlockManifest) (part : Part),
    l.foldl (fun (part : Part) block =>
        { part with Blocks := part.Blocks.put (gn block.BlockId) (NewBlock block.BlockId) }) part =
      { part with
        Blocks := l.foldl (fun acc block => acc.put (gn block.BlockId) (NewBlock block.BlockId))
          part.Blocks }
  | [], _ => rfl
  | b :: t, part => by
    rw [List.foldl_cons, foldl_blocks_eq gn t, List.foldl_cons]

theorem foldl_parts_eq (gn : List Nat → Nat) (mk : PartManifest → Part) :
    ∀ (l : List PartManifest) (s : Store),
      l.foldl (fun (s : Store) pm => { s with Parts := s.Parts.put (gn (mk pm).Id) (mk pm) }) s =
        { s with Parts := l.foldl (fun acc pm => acc.put (gn (mk pm).Id) (mk pm)) s.Parts }
  | [], _ => rfl
  | b :: t, s => by
    rw [List.foldl_cons, foldl_parts_eq gn mk t, List.foldl_cons]

theorem foldl_append_singleton {α β : Type} (g : α → β) : ∀ (l : List α) (acc : List β),
    l.foldl (fun acc x => acc ++ [g x]) acc = acc ++ l.map g
  | [], acc => by simp
  | x :: t, acc => by
    rw [List.foldl_cons, foldl_append_singleton g t]; simp

theorem foldl_blockManifest_eq (checksum : Block → List Nat) :
    ∀ (l : List (Nat × Block)) (pm : PartManifest),
      l.foldl (fun (pm : PartManifest) kb =>
          { pm with Blocks := pm.Blocks ++ [{ BlockId := kb.2.Id, Hash := checksum kb.2 }] }) pm =
        { pm with
          Blocks := pm.Blocks ++ l.map (fun kb => { BlockId := kb.2.Id, Hash := checksum kb.2 }) }
  | [], pm => by simp
  | x :: t, pm => by
    rw [List.foldl_cons, foldl_blockManifest_eq checksum t]; simp

theorem getManifest_eq (checksum : Block → List Nat) (s : Store) :
    s.getManifest checksum = s.Parts.map (fun kp => partManifestOf checksum kp.2) := by
  unfold Store.getManifest
  have h := foldl_append_singleton (fun kp : Nat × Part => partManifestOf checksum kp.2) s.Parts []
  simp only [List.nil_append] at h
  rw [← h]
  congr 1
  funext manifest kp
  simp [partManifestOf, foldl_blockManifest_eq]


theorem loadPart_partManifestOf (gn : List Nat → Nat) (checksum : Block → List Nat) (p : Part)
    (hb : (p.Blocks.map (fun kb => gn kb.2.Id)).Nodup) :
    loadPart gn (partManifestOf checksum p) = shellOf gn p := by
  unfold loadPart
  rw [foldl_blocks_eq]
  have h := foldl_put_fresh (fun b : BlockManifest => gn b.BlockId)
    (fun b : BlockManifest => NewBlock b.BlockId) (partManifestOf checksum p).Blocks []
    (by simpa [partManifestOf, List.map_map, Function.comp_def] using hb)
  simp only [NewPart, h]
  simp [shellOf, partManifestOf, List.map_map, Function.comp_def]

theorem loadPart_Id (gn : List Nat → Nat) (pm : PartManifest) : (loadPart gn pm).Id = pm.PartId := by
  unfold loadPart
  rw [foldl_blocks_eq]
  rfl

theorem loadManifest_getManifest (gn : List Nat → Nat) (checksum : Block → List Nat)
    (s s0 : Store) (h0 : s0.Parts = [])
    (hp : (s.Parts.map (fun kp => gn kp.2.Id)).Nodup)
    (hb : ∀ kp ∈ s.Parts, (kp.2.Blocks.map (fun kb => gn kb.2.Id)).Nodup) :
    (s0.loadManifest gn (s.getManifest checksum)).Parts =
      s.Parts.map (fun kp => (gn kp.2.Id, shellOf gn kp.2)) := by
  unfold Store.loadManifest
  rw [foldl_parts_eq gn (loadPart gn)]
  have h : (s.getManifest checksum).foldl
      (fun (acc : GoMap Part) pm => acc.put (gn (loadPart gn pm).Id) (loadPart gn pm)) [] =
      [] ++ (s.getManifest checksum).map (fun pm => (gn (loadPart gn pm).Id, loadPart gn pm)) :=
    foldl_put_fresh (fun pm : PartManifest => gn (loadPart gn pm).Id)
      (fun pm : PartManifest => loadPart gn pm) (s.getManifest checksum) []
      (by
        simp only [loadPart_Id, getManifest_eq, List.map_map, Function.comp_def, partManifestOf,
          List.map_nil, List.nil_append]
        exact hp)
  show List.foldl _ s0.Parts _ = _
  rw [h0, h]
  simp only [List.nil_append, getManifest_eq, List.map_map, Function.comp_def]
  apply List.map_congr_left
  intro kp hkp
  rw [loadPart_partManifestOf gn checksum kp.2 (hb kp hkp)]
  rfl


theorem bufferWriter_accepts : Accepts bufferWriter id := by
  intro s p
  exact ⟨rfl, rfl⟩

theorem bytesReader_serves : Serves bytesReader id := by
  intro s n hn hle
  have hne : ¬ s.length = 0 := by
    simp only [id] at hle
    omega
  simp [bytesReader, hne]

/-! ## Wire message codec: properties -/

/-- C1: Write/Read round trip. For every message whose fields are in the ranges of
their Go types and whose key is at most 65535 bytes long, writing it to a sink that
accepts every write and then reading into a fresh message from a source that serves
exactly the written bytes (filling each buffer it is given) gives no error on either
side and a message equal to the original in Op, Status, Expires, Key and Value. -/
theorem write_read_roundtrip {σ τ : Type} (m : Message) (w : Writer σ)
    (contents : σ → List Nat) (s : σ) (r : Reader τ) (rest : τ → List Nat) (t : τ)
    (ht : m.WellTyped) (hk : m.Key.length ≤ 65535)
    (hw : Accepts w contents) (hs : contents s = [])
    (hr : Serves r rest) (hrest : rest t = contents (m.Write w s).sink) :
    (m.Write w s).err = none ∧ (Message.zero.Read r t).err = none ∧
      (Message.zero.Read r t).msg = m := by
  have hW := Write_of_accepts m w contents s hw
  have hR := Read_of_serves m Message.zero r rest t [] ht hk hr
    (by rw [hrest, hW.2, hs]; simp)
  refine ⟨hW.1, hR.1, ?_⟩
  rw [hR.2.1]
  cases m with
  | mk op st ex key val =>
    cases key <;> cases val <;> simp [Message.zero]

/-- The round trip of C1 at `sampleMessage`, through a byte buffer. -/
theorem write_read_roundtrip_witness :
    sampleMessage.WellTyped ∧ sampleMessage.Key.length ≤ 65535 ∧
      (sampleMessage.Write bufferWriter []).err = none ∧
      (Message.zero.Read bytesReader (sampleMessage.Write bufferWriter []).sink).err = none ∧
      (Message.zero.Read bytesReader (sampleMessage.Write bufferWriter []).sink).msg =
        sampleMessage :=
  ⟨by decide, by decide,
    write_read_roundtrip sampleMessage bufferWriter id [] bytesReader id
      (sampleMessage.Write bufferWriter []).sink (by decide) (by decide)
      bufferWriter_accepts rfl bytesReader_serves rfl⟩

/-- C2: Header layout. For every message in the ranges of its Go types with a key of
at most 65535 bytes, serializeHeader returns exactly 20 bytes: byte 0 is Op, byte 1 is
Status, bytes 2..3 are the key length, bytes 4..11 the value length and bytes 12..19
Expires, each big-endian (most significant byte first, every byte below 256); and
deserializeHeader on those bytes sets Op, Status and Expires of any message to the
same values, leaves its Key and Value alone, and returns the two lengths. -/
theorem header_layout (m m0 : Message) (ht : m.WellTyped) (hk : m.Key.length ≤ 65535) :
    m.serializeHeader.length = 20 ∧
      m.serializeHeader =
        [m.Op, m.Status] ++ putUint16 m.Key.length ++ putUint64 m.Value.length ++
          putUint64 m.Expires ∧
      (∀ x ∈ m.serializeHeader, x < 256) ∧
      m.serializeHeader.getD 0 0 = m.Op ∧ m.serializeHeader.getD 1 0 = m.Status ∧
      m.serializeHeader.getD 2 0 * 256 + m.serializeHeader.getD 3 0 = m.Key.length ∧
      m.serializeHeader.getD 4 0 * 256 ^ 7 + m.serializeHeader.getD 5 0 * 256 ^ 6 +
        m.serializeHeader.getD 6 0 * 256 ^ 5 + m.serializeHeader.getD 7 0 * 256 ^ 4 +
        m.serializeHeader.getD 8 0 * 256 ^ 3 + m.serializeHeader.getD 9 0 * 256 ^ 2 +
        m.serializeHeader.getD 10 0 * 256 + m.serializeHeader.getD 11 0 = m.Value.length ∧
      m.serializeHeader.getD 12 0 * 256 ^ 7 + m.serializeHeader.getD 13 0 * 256 ^ 6 +
        m.serializeHeader.getD 14 0 * 256 ^ 5 + m.serializeHeader.getD 15 0 * 256 ^ 4 +
        m.serializeHeader.getD 16 0 * 256 ^ 3 + m.serializeHeader.getD 17 0 * 256 ^ 2 +
        m.serializeHeader.getD 18 0 * 256 + m.serializeHeader.getD 19 0 = m.Expires ∧
      m0.deserializeHeader m.serializeHeader =
        ({ m0 with Op := m.Op, Status := m.Status, Expires := m.Expires },
          (m.Key.length : Int), (m.Value.length : Int)) := by
  obtain ⟨hop, hst, hex, hkl, hvl⟩ := ht
  have hkm : m.Key.length % 2 ^ 16 = m.Key.length := Nat.mod_eq_of_lt (by omega)
  have hvm : m.Value.length % 2 ^ 64 = m.Value.length := Nat.mod_eq_of_lt (by omega)
  have hem : m.Expires % 2 ^ 64 = m.Expires := Nat.mod_eq_of_lt hex
  have hdes := deserializeHeader_serializeHeader m m0
  rw [hkm, hvm, hem, intOfUint64_of_lt _ hvl] at hdes
  have heq := serializeHeader_eq m
  rw [hkm, hvm] at heq
  refine ⟨serializeHeader_length m, heq, ?_, ?_, ?_, ?_, ?_, ?_, hdes⟩
  · rw [heq]
    intro x hx
    simp only [putUint16, putUint64, List.cons_append, List.nil_append, List.mem_cons,
      List.mem_singleton, List.not_mem_nil, or_false] at hx
    rcases hx with h | h | h | h | h | h | h | h | h | h | h | h | h | h | h | h | h | h | h | h <;>
      omega
  · rw [heq]; simp
  · rw [heq]; simp
  · rw [heq]; simp [putUint16]; omega
  · rw [heq]; simp [putUint16, putUint64]; omega
  · rw [heq]; simp [putUint16, putUint64]; omega

/-- The header of C2 at `sampleMessage`. -/
theorem header_layout_witness :
    sampleMessage.WellTyped ∧ sampleMessage.Key.length ≤ 65535 ∧
      sampleMessage.serializeHeader =
        [1, 0, 0, 3, 0, 0, 0, 0, 0, 0, 0, 5, 0, 0, 0, 0, 0, 0, 0, 0] ∧
      Message.zero.deserializeHeader sampleMessage.serializeHeader =
        ({ Message.zero with Op := 1, Status := 0, Expires := 0 }, 3, 5) :=
  ⟨by decide, by decide,
    (header_layout sampleMessage Message.zero (by decide) (by decide)).2.1,
    (header_layout sampleMessage Message.zero (by decide) (by decide)).2.2.2.2.2.2.2.2⟩

/-- C3: Write order and length. For every message and every sink that accepts every
write, Write returns no error and appends to the sink exactly the 20-byte header, then
the key bytes, then the value bytes, so the sink grows by 20 + len(Key) + len(Value). -/
theorem write_order_and_length {σ : Type} (m : Message) (w : Writer σ)
    (contents : σ → List Nat) (s : σ) (hw : Accepts w contents) :
    (m.Write w s).err = none ∧
      contents (m.Write w s).sink = contents s ++ (m.serializeHeader ++ m.Key ++ m.Value) ∧
      (contents (m.Write w s).sink).length =
        (contents s).length + (20 + m.Key.length + m.Value.length) := by
  have hW := Write_of_accepts m w contents s hw
  refine ⟨hW.1, hW.2, ?_⟩
  rw [hW.2]
  simp [serializeHeader_length]
  omega

/-- The output of C3 at `sampleMessage`: the 28 bytes of `sampleStream`. -/
theorem write_order_and_length_witness :
    (sampleMessage.Write bufferWriter []).err = none ∧
      (sampleMessage.Write bufferWriter []).sink = sampleStream ∧
      (sampleMessage.Write bufferWriter []).sink.length = 28 :=
  write_order_and_length sampleMessage bufferWriter id [] bufferWriter_accepts

/-- C4, as stated, fails: a source holding a single byte hands it over on the header
read without an error (as `bytes.Reader` does), and Read then returns nil with a
message decoded from that byte and nineteen zero bytes. -/
theorem short_header_not_an_error :
    (bytesReader shortHeaderStream MSG_HEADER_LEN).data.length = 1 ∧
      (bytesReader shortHeaderStream MSG_HEADER_LEN).err = none ∧
      (Message.zero.Read bytesReader shortHeaderStream).err = none ∧
      (Message.zero.Read bytesReader shortHeaderStream).msg =
        { Op := 7, Status := 0, Expires := 0, Key := [], Value := [] } := by
  decide

/-- C4, amended: whenever the header read itself returns an error, Read returns that
error, leaves the message as it was, and reads no further. -/
theorem header_read_error_is_returned {σ : Type} (m : Message) (r : Reader σ) (s : σ)
    (e : IOError) (h : (r s MSG_HEADER_LEN).err = some e) :
    (m.Read r s).err = some e ∧ (m.Read r s).msg = m ∧
      (m.Read r s).src = (r s MSG_HEADER_LEN).next ∧
      (m.Read (recordingReader r) (s, [])).src.2 = [MSG_HEADER_LEN] := by
  have h' : (recordingReader r (s, []) MSG_HEADER_LEN).err = some e := h
  refine ⟨?_, ?_, ?_, ?_⟩
  · simp only [Message.Read, List.length_replicate, h]
  · simp only [Message.Read, List.length_replicate, h]
  · simp only [Message.Read, List.length_replicate, h]
  · simp only [Message.Read, List.length_replicate, h']
    rfl

/-- The amended C4 at a source with no bytes: the header read returns EOF and so does Read. -/
theorem header_read_error_is_returned_witness :
    (bytesReader [] MSG_HEADER_LEN).err = some IOError.EOF ∧
      (sampleMessage.Read bytesReader []).err = some IOError.EOF ∧
      (sampleMessage.Read bytesReader []).msg = sampleMessage :=
  ⟨by decide,
    (header_read_error_is_returned sampleMessage bytesReader [] IOError.EOF (by decide)).1,
    (header_read_error_is_returned sampleMessage bytesReader [] IOError.EOF (by decide)).2.1⟩

/-- C6: Write failure propagation. For every message and every sink, Write makes the
header write first; if it fails, that error is returned and nothing else is written;
otherwise the key write follows, and if it fails, that error is returned and the value
is not written; otherwise the value write follows and its result is returned. So Write
returns an error exactly when one of the writes it made returned one, namely the first
failing one, and no write follows a failed one. The calls the sink received are
recorded by `recordingWriter`, which does not change the outcome. -/
theorem write_failure_propagation {σ : Type} (m : Message) (w : Writer σ) (s : σ) :
    ((∃ e, (w s m.serializeHeader).err = some e ∧
        (m.Write (recordingWriter w) (s, [])).err = some e ∧
        (m.Write (recordingWriter w) (s, [])).sink =
          ((w s m.serializeHeader).next, [m.serializeHeader])) ∨
      ((w s m.serializeHeader).err = none ∧
        ∃ e, (w (w s m.serializeHeader).next m.Key).err = some e ∧
          (m.Write (recordingWriter w) (s, [])).err = some e ∧
          (m.Write (recordingWriter w) (s, [])).sink =
            ((w (w s m.serializeHeader).next m.Key).next, [m.serializeHeader, m.Key])) ∨
      ((w s m.serializeHeader).err = none ∧
        (w (w s m.serializeHeader).next m.Key).err = none ∧
        (m.Write (recordingWriter w) (s, [])).err =
          (w (w (w s m.serializeHeader).next m.Key).next m.Value).err ∧
        (m.Write (recordingWriter w) (s, [])).sink =
          ((w (w (w s m.serializeHeader).next m.Key).next m.Value).next,
            [m.serializeHeader, m.Key, m.Value]))) ∧
    ((m.Write w s).err ≠ none ↔
      ((w s m.serializeHeader).err ≠ none ∨
        ((w s m.serializeHeader).err = none ∧
          (w (w s m.serializeHeader).next m.Key).err ≠ none) ∨
        ((w s m.serializeHeader).err = none ∧
          (w (w s m.serializeHeader).next m.Key).err = none ∧
          (w (w (w s m.serializeHeader).next m.Key).next m.Value).err ≠ none))) ∧
    (m.Write (recordingWriter w) (s, [])).err = (m.Write w s).err ∧
    (m.Write (recordingWriter w) (s, [])).sink.1 = (m.Write w s).sink := by
  cases h1 : (w s m.serializeHeader).err with
  | some e1 =>
    simp [Message.Write, recordingWriter, h1]
  | none =>
    cases h2 : (w (w s m.serializeHeader).next m.Key).err with
    | some e2 =>
      simp [Message.Write, recordingWriter, h1, h2]
    | none =>
      simp [Message.Write, recordingWriter, h1, h2]

/-- C7: Zero-length fields. A message with empty Key and empty Value is written as
exactly 20 bytes, with bytes 2..3 and 4..11 all zero and nothing after the header;
reading those 20 bytes into a fresh message returns no error, makes the header read
only, and leaves Key and Value empty. When only the Key is empty, bytes 2..3 are zero
and the header is followed by the whole Value; when only the Value is empty, bytes
4..11 are zero and the header is followed by the whole Key. -/
theorem zero_length_fields (op st ex : Nat) (key val : List Nat) :
    ((({ Op := op, Status := st, Expires := ex, Key := [], Value := [] } : Message).Write
          bufferWriter []).err = none ∧
      (({ Op := op, Status := st, Expires := ex, Key := [], Value := [] } : Message).Write
          bufferWriter []).sink =
        [op, st, 0, 0, 0, 0, 0, 0, 0, 0, 0, 0] ++ putUint64 ex ∧
      (({ Op := op, Status := st, Expires := ex, Key := [], Value := [] } : Message).Write
          bufferWriter []).sink.length = 20 ∧
      (Message.zero.Read (recordingReader bytesReader)
        ((({ Op := op, Status := st, Expires := ex, Key := [], Value := [] } : Message).Write
          bufferWriter []).sink, [])).err = none ∧
      (Message.zero.Read (recordingReader bytesReader)
        ((({ Op := op, Status := st, Expires := ex, Key := [], Value := [] } : Message).Write
          bufferWriter []).sink, [])).src.2 = [MSG_HEADER_LEN] ∧
      (Message.zero.Read (recordingReader bytesReader)
        ((({ Op := op, Status := st, Expires := ex, Key := [], Value := [] } : Message).Write
          bufferWriter []).sink, [])).msg.Key = [] ∧
      (Message.zero.Read (recordingReader bytesReader)
        ((({ Op := op, Status := st, Expires := ex, Key := [], Value := [] } : Message).Write
          bufferWriter []).sink, [])).msg.Value = []) ∧
    (slice ({ Op := op, Status := st, Expires := ex, Key := [], Value := val } :
          Message).serializeHeader 2 4 = [0, 0] ∧
      (({ Op := op, Status := st, Expires := ex, Key := [], Value := val } : Message).Write
          bufferWriter []).sink =
        ({ Op := op, Status := st, Expires := ex, Key := [], Value := val } :
          Message).serializeHeader ++ val) ∧
    (slice ({ Op := op, Status := st, Expires := ex, Key := key, Value := [] } :
          Message).serializeHeader 4 12 = [0, 0, 0, 0, 0, 0, 0, 0] ∧
      (({ Op := op, Status := st, Expires := ex, Key := key, Value := [] } : Message).Write
          bufferWriter []).sink =
        ({ Op := op, Status := st, Expires := ex, Key := key, Value := [] } :
          Message).serializeHeader ++ key) := by
  have hW : ∀ m : Message, (m.Write bufferWriter []).err = none ∧
      (m.Write bufferWriter []).sink = m.serializeHeader ++ m.Key ++ m.Value := by
    intro m
    have h := Write_of_accepts m bufferWriter id [] bufferWriter_accepts
    simpa using h
  have hsink : (({ Op := op, Status := st, Expires := ex, Key := [], Value := [] } :
      Message).Write bufferWriter []).sink =
      [op, st, 0, 0, 0, 0, 0, 0, 0, 0, 0, 0] ++ putUint64 ex := by
    rw [(hW _).2, serializeHeader_eq]
    simp [putUint16, putUint64]
  refine ⟨⟨(hW _).1, hsink, ?_, ?_⟩, ⟨?_, ?_⟩, ⟨?_, ?_⟩⟩
  · rw [hsink]; simp [putUint64]
  · rw [hsink]
    simp [Message.Read, Message.readValue, Message.deserializeHeader, recordingReader,
      bytesReader, putUint64, fillBuf, MSG_HEADER_LEN, slice, uint16, uint64, intOfUint64,
      Message.zero]
  · rw [serializeHeader_eq]; simp [slice, putUint16, putUint64]
  · rw [(hW _).2]; simp
  · rw [serializeHeader_eq]; simp [slice, putUint16, putUint64]
  · rw [(hW _).2]; simp

/-- C8: Concrete decode scenario. Reading into a fresh message from the 28-byte stream
01 00 0003 0000000000000005 0000000000000000 "abc" 01 02 03 04 05, each read filling
its buffer, returns no error and gives Op = 1, Status = 0, Key = "abc",
Value = [1,2,3,4,5], Expires = 0, with nothing left in the source. -/
theorem concrete_decode_scenario :
    sampleStream.length = 28 ∧
      (Message.zero.Read bytesReader sampleStream).err = none ∧
      (Message.zero.Read bytesReader sampleStream).msg =
        { Op := 1, Status := 0, Expires := 0, Key := [97, 98, 99], Value := [1, 2, 3, 4, 5] } ∧
      (Message.zero.Read bytesReader sampleStream).src = [] ∧
      (Message.zero.Read (recordingReader bytesReader) (sampleStream, [])).src.2 =
        [20, 3, 5] := by
  decide

/-! ## Routing and manifest: properties -/

/-- C9: Routing determinism. For every Part with a non-empty set of blocks and every
fingerprint, getClosestBlock returns a block, and it returns a block with the same
Identifier however the block map is traversed: two Parts holding the same entries in
any two orders give the same Identifier (and the same Part gives it on every call,
getClosestBlock being a function of the Part and the fingerprint). -/
theorem routing_determinism (p q : Part) (f : List Nat) (hne : p.Blocks ≠ [])
    (hperm : p.Blocks.Perm q.Blocks) :
    ∃ b c, p.getClosestBlock f = some b ∧ q.getClosestBlock f = some c ∧ b.Id = c.Id := by
  have hneq : q.Blocks ≠ [] := by
    intro h; rw [h] at hperm; exact hne (List.Perm.eq_nil hperm)
  obtain ⟨b, hb, hbm, hbmin⟩ := getClosestBlock_spec p f hne
  obtain ⟨c, hc, hcm, hcmin⟩ := getClosestBlock_spec q f hneq
  refine ⟨b, c, hb, hc, ?_⟩
  obtain ⟨xb, hxb, rfl⟩ := List.mem_map.mp hbm
  obtain ⟨xc, hxc, rfl⟩ := List.mem_map.mp hcm
  exact closer_total f _ _ (hcmin xb (hperm.mem_iff.mp hxb)) (hbmin xc (hperm.mem_iff.mpr hxc))

/-- The routing of C9 at `samplePart` in two traversal orders. -/
theorem routing_determinism_witness :
    samplePart.Blocks ≠ [] ∧ samplePart.Blocks.Perm samplePartReordered.Blocks ∧
      ∃ b c, samplePart.getClosestBlock [3, 5] = some b ∧
        samplePartReordered.getClosestBlock [3, 5] = some c ∧ b.Id = c.Id :=
  ⟨by decide, by decide,
    routing_determinism samplePart samplePartReordered [3, 5] (by decide) (by decide)⟩

/-- Reloading the manifest of a store whose part Identifiers have pairwise distinct
numbers, and whose block Identifiers within each part do too, gives back the same
Identifier sets. -/
theorem manifest_roundtrip_of_distinct {ρ : Type} (gn : List Nat → Nat) (checksum : Block → List Nat)
    (idLen : Nat) (rand : Reader ρ) (s s0 : Store) (cfg : PartConfig) (canCreate : Bool) (g : ρ)
    (hpersist : cfg.Persist = true)
    (hp : (s.Parts.map (fun kp => gn kp.2.Id)).Nodup)
    (hb : ∀ kp ∈ s.Parts, (kp.2.Blocks.map (fun kb => gn kb.2.Id)).Nodup) :
    ∃ s1, s0.EnsureManifest gn checksum idLen rand cfg
        (ManifestFile.holds (s.getManifest checksum)) canCreate g = EnsureResult.returned s1 none g ∧
      (∀ id, id ∈ s1.partIds ↔ id ∈ s.partIds) ∧
      (∀ kp ∈ s.Parts, ∀ kq ∈ s1.Parts, kq.2.Id = kp.2.Id →
        ∀ id, id ∈ kq.2.blockIds ↔ id ∈ kp.2.blockIds) := by
  refine ⟨Store.loadManifest gn { s0 with Parts := [] } (s.getManifest checksum),
    by simp [Store.EnsureManifest, hpersist], ?_, ?_⟩
  · intro id
    have hl := loadManifest_getManifest gn checksum s { s0 with Parts := [] } rfl hp hb
    simp [Store.partIds, hl, List.map_map, Function.comp_def, shellOf]
  · intro kp hkp kq hkq hid id
    rw [loadManifest_getManifest gn checksum s { s0 with Parts := [] } rfl hp hb] at hkq
    obtain ⟨kr, hkr, rfl⟩ := List.mem_map.mp hkq
    have hgn : gn kr.2.Id = gn kp.2.Id := by
      have : kr.2.Id = kp.2.Id := hid
      rw [this]
    have heq : kr = kp := List.inj_on_of_nodup_map hp hkr hkp hgn
    subst heq
    simp [Part.blockIds, shellOf, List.map_map, Function.comp_def, NewBlock]

theorem wellKeyed_distinct (gn : List Nat → Nat) (s : Store) (h : s.WellKeyed gn) :
    (s.Parts.map (fun kp => gn kp.2.Id)).Nodup ∧
      ∀ kp ∈ s.Parts, (kp.2.Blocks.map (fun kb => gn kb.2.Id)).Nodup := by
  obtain ⟨hk, hp⟩ := h
  constructor
  · have heq : s.Parts.map (fun kp => gn kp.2.Id) = s.Parts.map Prod.fst :=
      List.map_congr_left (fun kp hkp => ((hp kp hkp).1).symm)
    rw [heq]; exact hk
  · intro kp hkp
    have heq : kp.2.Blocks.map (fun kb => gn kb.2.Id) = kp.2.Blocks.map Prod.fst :=
      List.map_congr_left (fun kb hkb => ((hp kp hkp).2.2 kb hkb).symm)
    rw [heq]; exact (hp kp hkp).2.1

/-- C10: Manifest round trip. For every Store (its maps keyed, as every insertion in
the sources keys them, by getNumber of the Identifier), if the manifest that
getManifest produces is handed unchanged to the manifest-present branch of
EnsureManifest, the rebuilt Store has the same set of Part Identifiers, and every
rebuilt Part has the same set of Block Identifiers as the Part of the original with
that Identifier; whatever Store EnsureManifest is called on, its old Parts are gone. -/
theorem manifest_roundtrip {ρ : Type} (gn : List Nat → Nat) (checksum : Block → List Nat)
    (idLen : Nat) (rand : Reader ρ) (s s0 : Store) (cfg : PartConfig) (canCreate : Bool) (g : ρ)
    (hpersist : cfg.Persist = true) (hwk : s.WellKeyed gn) :
    ∃ s1, s0.EnsureManifest gn checksum idLen rand cfg
        (ManifestFile.holds (s.getManifest checksum)) canCreate g = EnsureResult.returned s1 none g ∧
      (∀ id, id ∈ s1.partIds ↔ id ∈ s.partIds) ∧
      (∀ kp ∈ s.Parts, ∀ kq ∈ s1.Parts, kq.2.Id = kp.2.Id →
        ∀ id, id ∈ kq.2.blockIds ↔ id ∈ kp.2.blockIds) ∧
      (∀ kp ∈ s.Parts, ∃ kq ∈ s1.Parts, kq.2.Id = kp.2.Id) ∧
      s1.WellKeyed gn := by
  obtain ⟨hp, hb⟩ := wellKeyed_distinct gn s hwk
  obtain ⟨s1, h1, h2, h3⟩ :=
    manifest_roundtrip_of_distinct gn checksum idLen rand s s0 cfg canCreate g hpersist hp hb
  have hl := loadManifest_getManifest gn checksum s { s0 with Parts := [] } rfl hp hb
  have hs1 : s1 = Store.loadManifest gn { s0 with Parts := [] } (s.getManifest checksum) := by
    have h1' := h1
    simp only [Store.EnsureManifest, hpersist, Bool.not_true, Bool.false_eq_true, if_false,
      EnsureResult.returned.injEq, and_true, true_and] at h1'
    exact h1'.symm
  refine ⟨s1, h1, h2, h3, ?_, ?_⟩
  · intro kp hkp
    have hmem : kp.2.Id ∈ s1.partIds := (h2 kp.2.Id).mpr (List.mem_map.mpr ⟨kp, hkp, rfl⟩)
    obtain ⟨kq, hkq, hid⟩ := List.mem_map.mp hmem
    exact ⟨kq, hkq, hid⟩
  · rw [hs1]
    unfold Store.WellKeyed
    rw [hl]
    refine ⟨?_, ?_⟩
    · simpa [List.map_map, Function.comp_def] using hp
    · intro kq hkq
      obtain ⟨kp, hkp, rfl⟩ := List.mem_map.mp hkq
      refine ⟨rfl, ?_, ?_⟩
      · simpa [shellOf, List.map_map, Function.comp_def] using hb kp hkp
      · intro kb hkb
        simp only [shellOf, List.mem_map] at hkb
        obtain ⟨kc, _, rfl⟩ := hkb
        rfl

/-- The round trip of C10 at `sampleStore`, reloaded into a store that held other parts. -/
theorem manifest_roundtrip_witness :
    persistConfig.Persist = true ∧ sampleStore.WellKeyed getNumber ∧
      ∃ s1, Store.EnsureManifest getNumber (fun _ => []) 2 noRand twinStore persistConfig
          (ManifestFile.holds (sampleStore.getManifest (fun _ => []))) true () =
            EnsureResult.returned s1 none () ∧
        (∀ id, id ∈ s1.partIds ↔ id ∈ sampleStore.partIds) ∧
        (∀ kp ∈ sampleStore.Parts, ∀ kq ∈ s1.Parts, kq.2.Id = kp.2.Id →
          ∀ id, id ∈ kq.2.blockIds ↔ id ∈ kp.2.blockIds) ∧
        (∀ kp ∈ sampleStore.Parts, ∃ kq ∈ s1.Parts, kq.2.Id = kp.2.Id) ∧
        s1.WellKeyed getNumber :=
  ⟨rfl, by decide,
    manifest_roundtrip getNumber (fun _ => []) 2 noRand sampleStore twinStore persistConfig
      true () rfl (by decide)⟩

/-- C11: getManifest is an exact snapshot of the topology. The manifest has one entry
per entry of the Parts map, in the order of the traversal, carrying the Identifier of
that part; each entry has one block entry per entry of the Blocks map of that part, in
the order of the traversal, carrying the Identifier of the block and its Checksum.
Nothing is added, dropped or duplicated. The function computes the manifest from the
store and assigns to nothing in it. -/
theorem getManifest_exact_snapshot (checksum : Block → List Nat) (s : Store) :
    s.getManifest checksum =
        s.Parts.map (fun kp =>
          { PartId := kp.2.Id,
            Blocks := kp.2.Blocks.map (fun kb =>
              { BlockId := kb.2.Id, Hash := checksum kb.2 }) }) ∧
      (s.getManifest checksum).length = s.Parts.length ∧
      (∀ i : Nat, ((s.getManifest checksum)[i]?).map (fun (pm : PartManifest) => pm.PartId) =
        (s.Parts[i]?).map (fun (kp : Nat × Part) => kp.2.Id)) ∧
      (∀ i : Nat,
        ((s.getManifest checksum)[i]?).map (fun (pm : PartManifest) => pm.Blocks.length) =
          (s.Parts[i]?).map (fun (kp : Nat × Part) => kp.2.Blocks.length)) ∧
      (∀ i j : Nat,
        ((s.getManifest checksum)[i]?).map (fun (pm : PartManifest) => pm.Blocks[j]?) =
          (s.Parts[i]?).map (fun (kp : Nat × Part) =>
            (kp.2.Blocks[j]?).map (fun (kb : Nat × Block) =>
              ({ BlockId := kb.2.Id, Hash := checksum kb.2 } : BlockManifest)))) := by
  have h := getManifest_eq checksum s
  refine ⟨h, ?_, ?_, ?_, ?_⟩
  · rw [h]; simp
  · intro i; rw [h]; simp [partManifestOf, Function.comp_def]
  · intro i; rw [h]; simp [partManifestOf, Function.comp_def]
  · intro i j; rw [h]; simp [partManifestOf, Function.comp_def]

/-- C13: EnsureManifest is a no-op when persistence is disabled. With Persist = false
it returns the store as it was (Parts and Dir untouched), writes no manifest, and makes
no read from the random source, whatever the manifest file and the directory are. -/
theorem ensureManifest_noop_without_persist {ρ : Type} (gn : List Nat → Nat)
    (checksum : Block → List Nat) (idLen : Nat) (rand : Reader ρ) (s : Store)
    (cfg : PartConfig) (file : ManifestFile) (canCreate : Bool) (g : ρ)
    (h : cfg.Persist = false) :
    s.EnsureManifest gn checksum idLen (recordingReader rand) cfg file canCreate (g, []) =
      EnsureResult.returned s none (g, []) := by
  simp [Store.EnsureManifest, h]

/-- The no-op of C13 at `sampleStore`, with a manifest file present. -/
theorem ensureManifest_noop_without_persist_witness :
    noPersistConfig.Persist = false ∧
      sampleStore.EnsureManifest getNumber (fun _ => []) 2 (recordingReader noRand)
          noPersistConfig (ManifestFile.holds []) true ((), []) =
        EnsureResult.returned sampleStore none ((), []) :=
  ⟨rfl, ensureManifest_noop_without_persist getNumber (fun _ => []) 2 noRand sampleStore
    noPersistConfig (ManifestFile.holds []) true () rfl⟩

/-- C14 on the code: with one part and one block asked for, a random source that
serves the part Identifier and then fails is not noticed. EnsureManifest returns, the
part holds a block whose Identifier is the untouched zero buffer, and a manifest
naming that block is written. A failure on the part Identifier, by contrast, panics. -/
theorem block_entropy_failure_is_ignored :
    (onceRand 1 2).err = some (IOError.other 1) ∧
      ((Store.mk [] []).EnsureManifest getNumber (fun _ => []) 2 onceRand oneByOneConfig
        ManifestFile.absent true 0).isPanic = false ∧
      ((Store.mk [] []).EnsureManifest getNumber (fun _ => []) 2 onceRand oneByOneConfig
        ManifestFile.absent true 0).store =
        some { Dir := [],
               Parts := [(getNumber [1, 1],
                 { Id := [1, 1], Blocks := [(getNumber [0, 0], NewBlock [0, 0])] })] } ∧
      ((Store.mk [] []).EnsureManifest getNumber (fun _ => []) 2 onceRand oneByOneConfig
        ManifestFile.absent true 0).written =
        some [{ PartId := [1, 1], Blocks := [{ BlockId := [0, 0], Hash := [] }] }] ∧
      ((Store.mk [] []).EnsureManifest getNumber (fun _ => []) 2 noRand oneByOneConfig
        ManifestFile.absent true ()).isPanic = true := by
  decide

/-- C16: Malformed header handling in deserializeHeader. For every byte slice whose
length is not 20, deserializeHeader returns the lengths (0, 0) and leaves the message
(Op, Status, Expires, Key, Value) as it was; it has no error to return. -/
theorem deserializeHeader_malformed (m : Message) (b : List Nat)
    (h : b.length ≠ MSG_HEADER_LEN) : m.deserializeHeader b = (m, 0, 0) := by
  simp [Message.deserializeHeader, h]

/-- The malformed header of C16 at a three-byte slice. -/
theorem deserializeHeader_malformed_witness :
    [1, 2, 3].length ≠ MSG_HEADER_LEN ∧
      sampleMessage.deserializeHeader [1, 2, 3] = (sampleMessage, 0, 0) :=
  ⟨by decide, deserializeHeader_malformed sampleMessage [1, 2, 3] (by decide)⟩

/-! ## Further lemmas on Read -/

theorem headerBuf_length {σ : Type} (r : Reader σ) (s : σ) :
    (headerBuf r s).length = MSG_HEADER_LEN := by
  simp [headerBuf, fillBuf_length]

theorem deserializeHeader_headerBuf {σ : Type} (m : Message) (r : Reader σ) (s : σ) :
    m.deserializeHeader (headerBuf r s) =
      ({ m with Op := (headerBuf r s).getD 0 0, Status := (headerBuf r s).getD 1 0,
                Expires := uint64 (slice (headerBuf r s) 12 20) },
        ((uint16 (slice (headerBuf r s) 2 4) : Nat) : Int),
        intOfUint64 (uint64 (slice (headerBuf r s) 4 12))) := by
  unfold Message.deserializeHeader
  rw [if_neg (by simp [headerBuf_length])]

theorem fresh_fields_eq (m : Message) :
    ({ Op := m.Op, Status := m.Status, Expires := m.Expires,
       Key := if m.Key.length > 0 then m.Key else Message.zero.Key,
       Value := if m.Value.length > 0 then m.Value else Message.zero.Value } : Message) = m := by
  cases m with
  | mk op st ex key val =>
    cases key <;> cases val <;> simp [Message.zero]

/-- What `Read` does after a header read without error, in terms of the header buffer. -/
theorem Read_of_header_ok {σ : Type} (m : Message) (r : Reader σ) (s : σ)
    (hh : (r s MSG_HEADER_LEN).err = none) :
    m.Read r s =
      if (m.deserializeHeader (headerBuf r s)).2.1 > 0 then
        match (r (r s MSG_HEADER_LEN).next (m.deserializeHeader (headerBuf r s)).2.1.toNat).err with
        | some e =>
          { err := some e, msg := (m.deserializeHeader (headerBuf r s)).1,
            src := (r (r s MSG_HEADER_LEN).next
              (m.deserializeHeader (headerBuf r s)).2.1.toNat).next }
        | none =>
          Message.readValue
            { (m.deserializeHeader (headerBuf r s)).1 with
              Key := fillBuf
                (List.replicate (m.deserializeHeader (headerBuf r s)).2.1.toNat 0)
                (r (r s MSG_HEADER_LEN).next
                  (m.deserializeHeader (headerBuf r s)).2.1.toNat).data }
            r (r (r s MSG_HEADER_LEN).next (m.deserializeHeader (headerBuf r s)).2.1.toNat).next
            (m.deserializeHeader (headerBuf r s)).2.2
      else
        Message.readValue (m.deserializeHeader (headerBuf r s)).1 r (r s MSG_HEADER_LEN).next
          (m.deserializeHeader (headerBuf r s)).2.2 := by
  simp only [Message.Read, headerBuf, List.length_replicate, hh]

theorem getD_lt_of_forall_lt (l : List Nat) (h : ∀ x ∈ l, x < 256) (i : Nat) :
    l.getD i 0 < 256 := by
  rw [List.getD_eq_getElem?_getD]
  cases hi : l[i]? with
  | none => simp
  | some x =>
    have hx : x ∈ l := List.getElem?_mem hi
    simpa using h x hx

theorem slice_forall_lt (b : List Nat) (lo hi : Nat) (h : ∀ x ∈ b, x < 256) :
    ∀ x ∈ slice b lo hi, x < 256 := by
  intro x hx
  exact h x (List.mem_of_mem_take (List.mem_of_mem_drop hx))

theorem uint64_lt (b : List Nat) (h : ∀ x ∈ b, x < 256) : uint64 b < 2 ^ 64 := by
  have h0 := getD_lt_of_forall_lt b h 0
  have h1 := getD_lt_of_forall_lt b h 1
  have h2 := getD_lt_of_forall_lt b h 2
  have h3 := getD_lt_of_forall_lt b h 3
  have h4 := getD_lt_of_forall_lt b h 4
  have h5 := getD_lt_of_forall_lt b h 5
  have h6 := getD_lt_of_forall_lt b h 6
  have h7 := getD_lt_of_forall_lt b h 7
  unfold uint64
  omega

theorem headerBuf_getD_zero {σ : Type} (r : Reader σ) (s : σ) (i : Nat)
    (hi : (r s MSG_HEADER_LEN).data.length ≤ i) : (headerBuf r s).getD i 0 = 0 := by
  unfold headerBuf fillBuf
  rw [List.getD_eq_getElem?_getD, List.getElem?_take]
  split
  · rw [List.getElem?_append_right hi]
    cases hx : (List.drop (r s MSG_HEADER_LEN).data.length
        (List.replicate MSG_HEADER_LEN 0))[i - (r s MSG_HEADER_LEN).data.length]? with
    | none => rfl
    | some x =>
      have hm : x ∈ List.replicate MSG_HEADER_LEN 0 :=
        List.mem_of_mem_drop (List.getElem?_mem hx)
      simp [(List.mem_replicate.mp hm).2]
  · rfl

/-! ## Wire message codec: further properties -/

/-- C20: The invalid-header branch is unreachable from Read. The buffer that Read hands
to deserializeHeader has length exactly 20 whatever the source delivered, its bytes
past the delivered ones are zero, deserializeHeader decodes Op, Status, the two lengths
and Expires from it (never returning by its length check), and after a header read
without error these are the Op, Status and Expires of the message Read leaves. -/
theorem invalid_header_branch_unreachable {σ : Type} (m : Message) (r : Reader σ) (s : σ) :
    (headerBuf r s).length = MSG_HEADER_LEN ∧
      (∀ i, (r s MSG_HEADER_LEN).data.length ≤ i → (headerBuf r s).getD i 0 = 0) ∧
      m.deserializeHeader (headerBuf r s) =
        ({ m with Op := (headerBuf r s).getD 0 0, Status := (headerBuf r s).getD 1 0,
                  Expires := uint64 (slice (headerBuf r s) 12 20) },
          ((uint16 (slice (headerBuf r s) 2 4) : Nat) : Int),
          intOfUint64 (uint64 (slice (headerBuf r s) 4 12))) ∧
      ((r s MSG_HEADER_LEN).err = none →
        (m.Read r s).msg.Op = (headerBuf r s).getD 0 0 ∧
        (m.Read r s).msg.Status = (headerBuf r s).getD 1 0 ∧
        (m.Read r s).msg.Expires = uint64 (slice (headerBuf r s) 12 20)) := by
  refine ⟨headerBuf_length r s, fun i hi => headerBuf_getD_zero r s i hi,
    deserializeHeader_headerBuf m r s, ?_⟩
  intro hh
  rw [Read_of_header_ok m r s hh, deserializeHeader_headerBuf]
  simp only [Message.readValue]
  split
  · split
    · simp
    · split <;> simp
  · split <;> simp

theorem deserializeHeader_of_length (m : Message) (b : List Nat)
    (hlen : b.length = MSG_HEADER_LEN) :
    m.deserializeHeader b =
      ({ m with Op := b.getD 0 0, Status := b.getD 1 0, Expires := uint64 (slice b 12 20) },
        ((uint16 (slice b 2 4) : Nat) : Int), intOfUint64 (uint64 (slice b 4 12))) := by
  unfold Message.deserializeHeader
  rw [if_neg (by simp [hlen])]

theorem intOfUint64_of_ge (v : Nat) (h1 : 2 ^ 63 ≤ v) (h2 : v < 2 ^ 64) :
    intOfUint64 v = (v : Int) - 2 ^ 64 := by
  unfold intOfUint64
  have hm : v % 2 ^ 64 = v := Nat.mod_eq_of_lt h2
  rw [hm, if_neg (by omega)]

theorem headerBuf_recording {σ : Type} (r : Reader σ) (s : σ) (l : List Nat) :
    headerBuf (recordingReader r) (s, l) = headerBuf r s := rfl

/-- C19: Oversized ValueLen in a header. For every 20-byte header (bytes below 256)
whose ValueLen field v is at least 2^63, deserializeHeader returns v - 2^64, a negative
value; for v below 2^63 it returns v. When Read meets such an oversized header and the
key read (made when KeyLen > 0) returns no error, Read returns no error, makes no value
read and leaves Value as it was. -/
theorem oversized_value_length {σ : Type} (m : Message) (b : List Nat) (r : Reader σ) (s : σ)
    (hlen : b.length = MSG_HEADER_LEN) (hbytes : ∀ x ∈ b, x < 256) :
    (2 ^ 63 ≤ uint64 (slice b 4 12) →
      (m.deserializeHeader b).2.2 = (uint64 (slice b 4 12) : Int) - 2 ^ 64 ∧
      (m.deserializeHeader b).2.2 < 0) ∧
    (uint64 (slice b 4 12) < 2 ^ 63 →
      (m.deserializeHeader b).2.2 = (uint64 (slice b 4 12) : Int)) ∧
    (2 ^ 63 ≤ uint64 (slice b 4 12) → headerBuf r s = b → (r s MSG_HEADER_LEN).err = none →
      (0 < (m.deserializeHeader b).2.1 →
        (r (r s MSG_HEADER_LEN).next (m.deserializeHeader b).2.1.toNat).err = none) →
      (m.Read (recordingReader r) (s, [])).err = none ∧
      (m.Read (recordingReader r) (s, [])).msg.Value = m.Value ∧
      (m.Read (recordingReader r) (s, [])).src.2 =
        [MSG_HEADER_LEN] ++
          (if 0 < (m.deserializeHeader b).2.1 then [(m.deserializeHeader b).2.1.toNat]
           else [])) := by
  have hv : uint64 (slice b 4 12) < 2 ^ 64 := uint64_lt _ (slice_forall_lt b 4 12 hbytes)
  have hd := deserializeHeader_of_length m b hlen
  refine ⟨?_, ?_, ?_⟩
  · intro hge
    rw [hd]
    simp only [intOfUint64_of_ge _ hge hv]
    exact ⟨trivial, by omega⟩
  · intro hlt
    rw [hd]
    simp only [intOfUint64_of_lt _ hlt]
  · intro hge hbuf hh hkey
    have hneg : ¬ (intOfUint64 (uint64 (slice b 4 12)) > 0) := by
      rw [intOfUint64_of_ge _ hge hv]; omega
    have hh' : (recordingReader r (s, []) MSG_HEADER_LEN).err = none := hh
    rw [Read_of_header_ok m (recordingReader r) (s, []) hh', headerBuf_recording, hbuf]
    rw [hd] at hkey ⊢
    simp only [Message.readValue, hneg, if_false]
    by_cases hk : ((uint16 (slice b 2 4) : Nat) : Int) > 0
    · have hke := hkey hk
      have hke' : (recordingReader r (recordingReader r (s, []) MSG_HEADER_LEN).next
          (Int.toNat ((uint16 (slice b 2 4) : Nat) : Int))).err = none := hke
      simp only [hk, if_true, hke']
      simp [recordingReader]
    · simp only [hk, if_false]
      simp [recordingReader]

/-- The oversized header of C19 with ValueLen = 2^64 - 1 and a three-byte key: the
returned value length is negative, and Read makes the header and key reads only. -/
theorem oversized_value_length_witness :
    oversizedHeader.length = MSG_HEADER_LEN ∧ (∀ x ∈ oversizedHeader, x < 256) ∧
      2 ^ 63 ≤ uint64 (slice oversizedHeader 4 12) ∧
      (sampleMessage.deserializeHeader oversizedHeader).2.2 < 0 ∧
      (sampleMessage.Read (recordingReader bytesReader) (oversizedStream, [])).err = none ∧
      (sampleMessage.Read (recordingReader bytesReader) (oversizedStream, [])).msg.Value =
        sampleMessage.Value :=
  ⟨by decide, by decide, by decide,
    ((oversized_value_length sampleMessage oversizedHeader bytesReader oversizedStream
      (by decide) (by decide)).1 (by decide)).2,
    ((oversized_value_length sampleMessage oversizedHeader bytesReader oversizedStream
      (by decide) (by decide)).2.2 (by decide) (by decide) (by decide) (by decide)).1,
    ((oversized_value_length sampleMessage oversizedHeader bytesReader oversizedStream
      (by decide) (by decide)).2.2 (by decide) (by decide) (by decide) (by decide)).2.1⟩

/-- C15: Stream framing. For two messages in the ranges of their Go types with keys of
at most 65535 bytes, written one after the other to a sink that accepts every write,
two reads into fresh messages from a source that serves the written bytes (filling each
buffer) return the first message and then the second, without error; the first read
consumes exactly 20 + len(Key) + len(Value) bytes, leaving exactly the bytes of the
second message, and the second read leaves nothing. -/
theorem stream_framing {σ τ : Type} (m1 m2 : Message) (w : Writer σ)
    (contents : σ → List Nat) (s : σ) (r : Reader τ) (rest : τ → List Nat) (t : τ)
    (ht1 : m1.WellTyped) (hk1 : m1.Key.length ≤ 65535)
    (ht2 : m2.WellTyped) (hk2 : m2.Key.length ≤ 65535)
    (hw : Accepts w contents) (hs : contents s = [])
    (hr : Serves r rest) (hrest : rest t = contents (m2.Write w (m1.Write w s).sink).sink) :
    (Message.zero.Read r t).err = none ∧ (Message.zero.Read r t).msg = m1 ∧
      rest (Message.zero.Read r t).src = m2.serializeHeader ++ m2.Key ++ m2.Value ∧
      (rest t).length =
        (20 + m1.Key.length + m1.Value.length) + (rest (Message.zero.Read r t).src).length ∧
      (Message.zero.Read r (Message.zero.Read r t).src).err = none ∧
      (Message.zero.Read r (Message.zero.Read r t).src).msg = m2 ∧
      rest (Message.zero.Read r (Message.zero.Read r t).src).src = [] := by
  have hW1 := Write_of_accepts m1 w contents s hw
  have hW2 := Write_of_accepts m2 w contents (m1.Write w s).sink hw
  have hbytes : rest t = m1.serializeHeader ++ m1.Key ++ m1.Value ++
      (m2.serializeHeader ++ m2.Key ++ m2.Value) := by
    rw [hrest, hW2.2, hW1.2, hs]; simp
  have hR1 := Read_of_serves m1 Message.zero r rest t _ ht1 hk1 hr hbytes
  have hR2 := Read_of_serves m2 Message.zero r rest (Message.zero.Read r t).src [] ht2 hk2 hr
    (by rw [hR1.2.2]; simp)
  refine ⟨hR1.1, ?_, hR1.2.2, ?_, hR2.1, ?_, hR2.2.2⟩
  · rw [hR1.2.1]; exact fresh_fields_eq m1
  · rw [hR1.2.2, hbytes]
    simp [serializeHeader_length]
    omega
  · rw [hR2.2.1]; exact fresh_fields_eq m2

/-- The framing of C15 at `emptyKeyMessage` followed by `sampleMessage`, through a
byte buffer. -/
theorem stream_framing_witness :
    emptyKeyMessage.WellTyped ∧ sampleMessage.WellTyped ∧
      (Message.zero.Read bytesReader
        (sampleMessage.Write bufferWriter (emptyKeyMessage.Write bufferWriter []).sink).sink).msg =
        emptyKeyMessage ∧
      (Message.zero.Read bytesReader (Message.zero.Read bytesReader
        (sampleMessage.Write bufferWriter
          (emptyKeyMessage.Write bufferWriter []).sink).sink).src).msg = sampleMessage :=
  ⟨by decide, by decide,
    (stream_framing emptyKeyMessage sampleMessage bufferWriter id [] bytesReader id
      (sampleMessage.Write bufferWriter (emptyKeyMessage.Write bufferWriter []).sink).sink
      (by decide) (by decide) (by decide) (by decide) bufferWriter_accepts rfl
      bytesReader_serves rfl).2.1,
    (stream_framing emptyKeyMessage sampleMessage bufferWriter id [] bytesReader id
      (sampleMessage.Write bufferWriter (emptyKeyMessage.Write bufferWriter []).sink).sink
      (by decide) (by decide) (by decide) (by decide) bufferWriter_accepts rfl
      bytesReader_serves rfl).2.2.2.2.2.1⟩

/-- Reading from a source that serves the header of `m` followed by any `payload` long
enough for the two announced lengths: the key is cut from the front of the payload by
the announced key length, the value from what follows by the announced value length. -/
theorem Read_of_serves_payload {σ : Type} (m m0 : Message) (r : Reader σ)
    (rest : σ → List Nat) (t : σ) (payload : List Nat) (ht : m.WellTyped)
    (hr : Serves r rest) (hrest : rest t = m.serializeHeader ++ payload)
    (hlen : m.Key.length % 2 ^ 16 + m.Value.length ≤ payload.length) :
    (m0.Read r t).err = none ∧
      (m0.Read r t).msg =
        { Op := m.Op, Status := m.Status, Expires := m.Expires,
          Key := if m.Key.length % 2 ^ 16 > 0 then payload.take (m.Key.length % 2 ^ 16)
                 else m0.Key,
          Value := if m.Value.length > 0 then
                     (payload.drop (m.Key.length % 2 ^ 16)).take m.Value.length
                   else m0.Value } ∧
      rest (m0.Read r t).src = payload.drop (m.Key.length % 2 ^ 16 + m.Value.length) := by
  obtain ⟨hop, hst, hex, hkl, hvl⟩ := ht
  have hlen20 := serializeHeader_length m
  have h1 := hr t 20 (by norm_num) (by rw [hrest]; simp [hlen20])
  have hd : (r t 20).data = m.serializeHeader := by
    rw [h1.1, hrest]; exact List.take_left' hlen20
  have hn : rest (r t 20).next = payload := by
    rw [h1.2.2, hrest, List.drop_left' hlen20]
  have hdes := deserializeHeader_serializeHeader m m0
  have hvm : m.Value.length % 2 ^ 64 = m.Value.length := Nat.mod_eq_of_lt (by omega)
  have hem : m.Expires % 2 ^ 64 = m.Expires := Nat.mod_eq_of_lt hex
  rw [hvm, hem, intOfUint64_of_lt _ hvl] at hdes
  have hfill : fillBuf (List.replicate 20 0) m.serializeHeader = m.serializeHeader :=
    fillBuf_of_length_eq _ _ (by simp [hlen20])
  have htake : ((payload.drop (m.Key.length % 2 ^ 16)).take m.Value.length).length =
      m.Value.length := by
    rw [List.length_take, List.length_drop]; omega
  unfold Message.Read
  simp only [MSG_HEADER_LEN, List.length_replicate, h1.2.1, hd, hfill, hdes]
  by_cases hkp : m.Key.length % 2 ^ 16 > 0
  · have hpos : ((m.Key.length % 2 ^ 16 : Nat) : Int) > 0 := by omega
    have h2 := hr (r t 20).next (m.Key.length % 2 ^ 16) hkp (by rw [hn]; omega)
    rw [hn] at h2
    simp only [hpos, if_true, hkp, Int.toNat_ofNat, h2.1, h2.2.1]
    rw [fillBuf_of_length_eq _ _ (by rw [List.length_take, List.length_replicate]; omega)]
    have h3 := readValue_of_serves
      { Op := m.Op, Status := m.Status, Expires := m.Expires,
        Key := payload.take (m.Key.length % 2 ^ 16), Value := m0.Value }
      r rest (r (r t 20).next (m.Key.length % 2 ^ 16)).next
      ((payload.drop (m.Key.length % 2 ^ 16)).take m.Value.length)
      ((payload.drop (m.Key.length % 2 ^ 16)).drop m.Value.length) hr
      (by rw [h2.2.2, List.take_append_drop])
    rw [htake] at h3
    refine ⟨h3.1, h3.2.1, ?_⟩
    rw [h3.2.2, List.drop_drop]
  · have hnpos : ¬ ((m.Key.length % 2 ^ 16 : Nat) : Int) > 0 := by omega
    have hk0 : m.Key.length % 2 ^ 16 = 0 := by omega
    simp only [hnpos, if_false, hkp]
    have h3 := readValue_of_serves
      { Op := m.Op, Status := m.Status, Expires := m.Expires, Key := m0.Key, Value := m0.Value }
      r rest (r t 20).next
      ((payload.drop (m.Key.length % 2 ^ 16)).take m.Value.length)
      ((payload.drop (m.Key.length % 2 ^ 16)).drop m.Value.length) hr
      (by rw [hn, List.take_append_drop, hk0, List.drop_zero])
    rw [htake] at h3
    refine ⟨h3.1, h3.2.1, ?_⟩
    rw [h3.2.2, List.drop_drop]

theorem longKeyMessage_length : longKeyMessage.Key.length = 65537 := by
  show ([8, 7, 7] ++ List.replicate 65534 7).length = 65537
  rw [List.length_append, List.length_replicate]
  rfl

theorem longKeyMessage_wellTyped : longKeyMessage.WellTyped := by
  unfold Message.WellTyped
  rw [longKeyMessage_length]
  simp only [longKeyMessage, List.length_cons, List.length_nil]
  norm_num

/-- C18: Key length truncation. For every message (in the ranges of its Go types) whose
key is 65536 bytes or longer, serializeHeader writes len(Key) mod 2^16 big-endian into
header bytes 2..3 while Write still emits all the key bytes; reading the written bytes
back into a fresh message gives no error but a different key, namely the first
len(Key) mod 2^16 bytes of it, and the value is cut from the remaining key bytes
followed by the value bytes. -/
theorem key_length_truncation {σ τ : Type} (m : Message) (w : Writer σ)
    (contents : σ → List Nat) (s : σ) (r : Reader τ) (rest : τ → List Nat) (t : τ)
    (hk : 65536 ≤ m.Key.length) (ht : m.WellTyped)
    (hw : Accepts w contents) (hs : contents s = [])
    (hr : Serves r rest) (hrest : rest t = contents (m.Write w s).sink) :
    slice m.serializeHeader 2 4 = putUint16 (m.Key.length % 2 ^ 16) ∧
      uint16 (slice m.serializeHeader 2 4) = m.Key.length % 2 ^ 16 ∧
      contents (m.Write w s).sink = m.serializeHeader ++ m.Key ++ m.Value ∧
      (contents (m.Write w s).sink).length = 20 + m.Key.length + m.Value.length ∧
      (Message.zero.Read r t).err = none ∧
      (Message.zero.Read r t).msg.Key ≠ m.Key ∧
      (Message.zero.Read r t).msg.Key = m.Key.take (m.Key.length % 2 ^ 16) ∧
      (Message.zero.Read r t).msg.Value =
        (m.Key.drop (m.Key.length % 2 ^ 16) ++ m.Value).take m.Value.length := by
  have hW := Write_of_accepts m w contents s hw
  rw [hs, List.nil_append] at hW
  have hmod : m.Key.length % 2 ^ 16 < 65536 := Nat.mod_lt _ (by norm_num)
  have hR := Read_of_serves_payload m Message.zero r rest t (m.Key ++ m.Value) ht hr
    (by rw [hrest, hW.2]; simp) (by simp; omega)
  have h24 : slice m.serializeHeader 2 4 = putUint16 (m.Key.length % 2 ^ 16) := by
    rw [serializeHeader_eq]; simp [slice, putUint16, putUint64]
  have hkey : (Message.zero.Read r t).msg.Key = m.Key.take (m.Key.length % 2 ^ 16) := by
    rw [hR.2.1]
    by_cases hp : m.Key.length % 2 ^ 16 > 0
    · simp only [hp, if_true]
      rw [List.take_append_of_le_length (by omega)]
    · have h0 : m.Key.length % 2 ^ 16 = 0 := by omega
      rw [if_neg hp, h0]
      rfl
  refine ⟨h24, ?_, hW.2, ?_, hR.1, ?_, hkey, ?_⟩
  · rw [h24]; exact uint16_putUint16 _ hmod
  · rw [hW.2]; simp [serializeHeader_length]; omega
  · rw [hkey]
    intro heq
    have hl := congrArg List.length heq
    rw [List.length_take] at hl
    omega
  · rw [hR.2.1]
    by_cases hv : m.Value.length > 0
    · simp only [hv, if_true]
      rw [List.drop_append_of_le_length (by omega)]
    · have h0 : m.Value.length = 0 := by omega
      rw [if_neg hv, h0]
      rfl

/-- The truncation of C18 at a key of 65537 bytes and the value [1, 2]: the decoded key
is the first key byte alone and the decoded value is the next two key bytes. -/
theorem key_length_truncation_witness :
    65536 ≤ longKeyMessage.Key.length ∧ longKeyMessage.WellTyped ∧
      (Message.zero.Read bytesReader (longKeyMessage.Write bufferWriter []).sink).err = none ∧
      (Message.zero.Read bytesReader (longKeyMessage.Write bufferWriter []).sink).msg.Key =
        [8] ∧
      (Message.zero.Read bytesReader (longKeyMessage.Write bufferWriter []).sink).msg.Value =
        [7, 7] := by
  have h := key_length_truncation longKeyMessage bufferWriter id [] bytesReader id
    (longKeyMessage.Write bufferWriter []).sink (by rw [longKeyMessage_length]; norm_num)
    longKeyMessage_wellTyped bufferWriter_accepts rfl bytesReader_serves rfl
  refine ⟨by rw [longKeyMessage_length]; norm_num, longKeyMessage_wellTyped, h.2.2.2.2.1, ?_, ?_⟩
  · rw [h.2.2.2.2.2.2.1, longKeyMessage_length]
    rfl
  · rw [h.2.2.2.2.2.2.2, longKeyMessage_length]
    rfl

/-! ## Fresh topology -/

theorem drawBlockIds_length {ρ : Type} (idLen : Nat) (rand : Reader ρ) :
    ∀ (n : Nat) (g : ρ), (drawBlockIds idLen rand n g).1.length = n
  | 0, _ => rfl
  | n + 1, g => by simp [drawBlockIds, drawBlockIds_length idLen rand n]

theorem drawIds_length {ρ : Type} (idLen : Nat) (rand : Reader ρ) (count : Nat) :
    ∀ (n : Nat) (g : ρ), (drawIds idLen rand count n g).1.length = n
  | 0, _ => rfl
  | n + 1, g => by simp [drawIds, drawIds_length idLen rand count n]

theorem drawIds_blocks_length {ρ : Type} (idLen : Nat) (rand : Reader ρ) (count : Nat) :
    ∀ (n : Nat) (g : ρ), ∀ pb ∈ (drawIds idLen rand count n g).1, pb.2.length = count
  | 0, _ => by simp [drawIds]
  | n + 1, g => by
    intro pb hpb
    simp only [drawIds, List.mem_cons] at hpb
    rcases hpb with h | h
    · rw [h]; exact drawBlockIds_length idLen rand count _
    · exact drawIds_blocks_length idLen rand count n _ pb h

theorem genBlocks_eq {ρ : Type} (gn : List Nat → Nat) (idLen : Nat) (rand : Reader ρ) :
    ∀ (n : Nat) (part : Part) (g : ρ),
      (part.Blocks.map Prod.fst ++ (drawBlockIds idLen rand n g).1.map gn).Nodup →
      genBlocks gn idLen rand n part g =
        ({ part with
            Blocks := part.Blocks ++
              (drawBlockIds idLen rand n g).1.map (fun b => (gn b, NewBlock b)) },
          (drawBlockIds idLen rand n g).2)
  | 0, part, g, _ => by simp [genBlocks, drawBlockIds]
  | n + 1, part, g, h => by
    simp only [drawBlockIds, List.map_cons] at h
    have hx : gn (drawId idLen rand g) ∉ part.Blocks.map Prod.fst := by
      intro hmem
      exact (List.nodup_append.mp h).2.2 hmem (by simp)
    have hnd : ((part.Blocks ++ [(gn (drawId idLen rand g), NewBlock (drawId idLen rand g))]).map
        Prod.fst ++ (drawBlockIds idLen rand n (rand g idLen).next).1.map gn).Nodup := by
      simpa [List.append_assoc] using h
    have ih := genBlocks_eq gn idLen rand n
      { part with
        Blocks := part.Blocks ++
          [(gn (drawId idLen rand g), NewBlock (drawId idLen rand g))] }
      (rand g idLen).next hnd
    simp only [genBlocks, List.length_replicate, drawBlockIds, List.map_cons]
    rw [show fillBuf (List.replicate idLen 0) (rand g idLen).data = drawId idLen rand g from rfl,
      GoMap.put_fresh _ _ _ hx, ih]
    simp

theorem genParts_eq {ρ : Type} (gn : List Nat → Nat) (idLen : Nat) (rand : Reader ρ)
    (count : Nat) :
    ∀ (n : Nat) (s : Store) (g : ρ),
      partReadsOk idLen rand count n g = true →
      (s.Parts.map Prod.fst ++
        (drawIds idLen rand count n g).1.map (fun pb => gn pb.1)).Nodup →
      (∀ pb ∈ (drawIds idLen rand count n g).1, (pb.2.map gn).Nodup) →
      genParts gn idLen rand count n s g =
        some ({ s with
                Parts := s.Parts ++
                  (drawIds idLen rand count n g).1.map (fun pb => (gn pb.1, freshPart gn pb)) },
              (drawIds idLen rand count n g).2)
  | 0, s, g, _, _, _ => by simp [genParts, drawIds]
  | n + 1, s, g, hok, h, hb => by
    simp only [partReadsOk, Bool.and_eq_true, Option.isNone_iff_eq_none] at hok
    simp only [drawIds, List.map_cons] at h
    have hx : gn (drawId idLen rand g) ∉ s.Parts.map Prod.fst := by
      intro hmem
      exact (List.nodup_append.mp h).2.2 hmem (by simp)
    have hblocks : ((NewPart (drawId idLen rand g)).Blocks.map Prod.fst ++
        (drawBlockIds idLen rand count (rand g idLen).next).1.map gn).Nodup := by
      have := hb (drawId idLen rand g, (drawBlockIds idLen rand count (rand g idLen).next).1)
        (by simp [drawIds])
      simpa [NewPart] using this
    have hgb := genBlocks_eq gn idLen rand count (NewPart (drawId idLen rand g))
      (rand g idLen).next hblocks
    have hnd : ((s.Parts ++ [(gn (drawId idLen rand g),
        freshPart gn (drawId idLen rand g,
          (drawBlockIds idLen rand count (rand g idLen).next).1))]).map Prod.fst ++
        (drawIds idLen rand count n
          (drawBlockIds idLen rand count (rand g idLen).next).2).1.map
            (fun pb => gn pb.1)).Nodup := by
      simpa [List.append_assoc] using h
    have hb' : ∀ pb ∈ (drawIds idLen rand count n
        (drawBlockIds idLen rand count (rand g idLen).next).2).1, (pb.2.map gn).Nodup := by
      intro pb hpb
      exact hb pb (by simp [drawIds, hpb])
    have ih := genParts_eq gn idLen rand count n
      { s with
        Parts := s.Parts ++ [(gn (drawId idLen rand g),
          freshPart gn (drawId idLen rand g,
            (drawBlockIds idLen rand count (rand g idLen).next).1))] }
      (drawBlockIds idLen rand count (rand g idLen).next).2 hok.2 hnd hb'
    simp only [genParts, List.length_replicate, hok.1, drawIds, List.map_cons]
    rw [show fillBuf (List.replicate idLen 0) (rand g idLen).data = drawId idLen rand g from rfl,
      hgb, GoMap.put_fresh _ _ _ hx]
    simp only [NewPart, List.nil_append]
    rw [show Part.mk (drawId idLen rand g)
          ((drawBlockIds idLen rand count (rand g idLen).next).1.map
            (fun b => (gn b, NewBlock b))) =
        freshPart gn (drawId idLen rand g,
          (drawBlockIds idLen rand count (rand g idLen).next).1) from rfl, ih]
    simp

theorem sum_map_const_length {α : Type} (f : α → Nat) (c : Nat) :
    ∀ l : List α, (∀ x ∈ l, f x = c) → (l.map f).sum = l.length * c
  | [], _ => by simp
  | x :: t, h => by
    have hx : f x = c := h x (by simp)
    have ht := sum_map_const_length f c t (fun y hy => h y (by simp [hy]))
    simp only [List.map_cons, List.sum_cons, List.length_cons, hx, ht]
    ring

/-! ## Manifest: further properties -/

/-- C12: Fresh topology shape. With persistence enabled, no manifest file and
Count = n >= 0, if the reads of the random source for the part Identifiers return no
error and the generated Identifiers have pairwise distinct numbers under getNumber
(the parts among themselves, the blocks within each part), EnsureManifest builds a
store of exactly n parts with exactly n blocks each, n * n blocks in all, every part
and block carrying the Identifier generated for it, in the directory it had; it
returns that store with its manifest written when the manifest file can be created,
and panics when it cannot. -/
theorem fresh_topology_shape {ρ : Type} (gn : List Nat → Nat) (checksum : Block → List Nat)
    (idLen : Nat) (rand : Reader ρ) (s : Store) (cfg : PartConfig) (canCreate : Bool) (g : ρ)
    (hp : cfg.Persist = true) (hn : 0 ≤ cfg.Count)
    (hok : partReadsOk idLen rand cfg.Count.toNat cfg.Count.toNat g = true)
    (hdp : ((drawIds idLen rand cfg.Count.toNat cfg.Count.toNat g).1.map
      (fun pb => gn pb.1)).Nodup)
    (hdb : ∀ pb ∈ (drawIds idLen rand cfg.Count.toNat cfg.Count.toNat g).1,
      (pb.2.map gn).Nodup) :
    ∃ s1, s.EnsureManifest gn checksum idLen rand cfg ManifestFile.absent canCreate g =
        (if canCreate then
          EnsureResult.returned s1 (some (s1.getManifest checksum))
            (drawIds idLen rand cfg.Count.toNat cfg.Count.toNat g).2
         else EnsureResult.panicked) ∧
      s1.Dir = s.Dir ∧
      s1.Parts = (drawIds idLen rand cfg.Count.toNat cfg.Count.toNat g).1.map
        (fun pb => (gn pb.1, freshPart gn pb)) ∧
      (s1.Parts.length : Int) = cfg.Count ∧
      (∀ kp ∈ s1.Parts, (kp.2.Blocks.length : Int) = cfg.Count) ∧
      (((s1.Parts.map (fun kp => kp.2.Blocks.length)).sum : Nat) : Int) =
        cfg.Count * cfg.Count := by
  have hgen := genParts_eq gn idLen rand cfg.Count.toNat cfg.Count.toNat
    { s with Parts := [] } g hok (by simpa using hdp) hdb
  simp only [List.nil_append] at hgen
  have hcount : ((cfg.Count.toNat : Nat) : Int) = cfg.Count := Int.toNat_of_nonneg hn
  have hblk : ∀ kp ∈ (drawIds idLen rand cfg.Count.toNat cfg.Count.toNat g).1.map
      (fun pb => (gn pb.1, freshPart gn pb)), kp.2.Blocks.length = cfg.Count.toNat := by
    intro kp hkp
    obtain ⟨pb, hpb, rfl⟩ := List.mem_map.mp hkp
    simp only [freshPart, List.length_map]
    exact drawIds_blocks_length idLen rand _ _ g pb hpb
  refine ⟨{ Dir := s.Dir,
            Parts := (drawIds idLen rand cfg.Count.toNat cfg.Count.toNat g).1.map
              (fun pb => (gn pb.1, freshPart gn pb)) }, ?_, rfl, rfl, ?_, ?_, ?_⟩
  · simp only [Store.EnsureManifest, hp, Bool.not_true, Bool.false_eq_true, if_false, hgen]
    cases canCreate <;> simp
  · simp only [List.length_map, drawIds_length]
    exact hcount
  · intro kp hkp
    rw [hblk kp hkp]
    exact hcount
  · rw [sum_map_const_length _ cfg.Count.toNat _ hblk]
    simp only [List.length_map, drawIds_length]
    push_cast
    rw [hcount]

/-- The fresh topology of C12 for Count = 2 and a random source that counts up: two
parts, [1] with blocks [2] and [3], and [4] with blocks [5] and [6]. -/
theorem fresh_topology_shape_witness :
    persistConfig.Persist = true ∧ 0 ≤ persistConfig.Count ∧
      ∃ s1, twinStore.EnsureManifest getNumber (fun _ => []) 1 countingRand persistConfig
          ManifestFile.absent true 0 =
            EnsureResult.returned s1 (some (s1.getManifest (fun _ => []))) 6 ∧
        s1.Parts =
          [(1, { Id := [1], Blocks := [(2, NewBlock [2]), (3, NewBlock [3])] }),
           (4, { Id := [4], Blocks := [(5, NewBlock [5]), (6, NewBlock [6])] })] := by
  obtain ⟨s1, h1, _, h3, _⟩ := fresh_topology_shape getNumber (fun _ => []) 1 countingRand
    twinStore persistConfig true 0 rfl (by decide) (by decide) (by decide) (by decide)
  refine ⟨rfl, by decide, s1, ?_, ?_⟩
  · rw [h1]; rfl
  · rw [h3]; decide

/-! ## Read with the allocation limit: lemmas -/

theorem makeBytes_of_le (allocLimit : Nat) (n : Int) (h0 : 0 ≤ n) (h : n ≤ (allocLimit : Int)) :
    makeBytes allocLimit n = some (List.replicate n.toNat 0) := by
  unfold makeBytes
  rw [if_neg (by omega)]

theorem makeBytes_of_gt (allocLimit : Nat) (n : Int) (h : (allocLimit : Int) < n) :
    makeBytes allocLimit n = none := by
  unfold makeBytes
  rw [if_pos (Or.inr h)]

/-- The value part with the allocation limit: a panic for a length beyond the limit,
and the value part of `Read` otherwise. -/
theorem readValueAlloc_eq {σ : Type} (allocLimit : Nat) (m : Message) (r : Reader σ) (s : σ)
    (v : Int) :
    m.readValueAlloc allocLimit r s v =
      if (allocLimit : Int) < v then ReadRun.panicked m s
      else ReadRun.returned (m.readValue r s v) := by
  unfold Message.readValueAlloc Message.readValue
  by_cases hv : v > 0
  · by_cases hl : (allocLimit : Int) < v
    · simp only [hv, if_true, makeBytes_of_gt _ _ hl, hl]
    · have hmk := makeBytes_of_le allocLimit v (by omega) (by omega)
      simp only [hv, if_true, hmk, hl, if_false]
  · have hl : ¬ (allocLimit : Int) < v := by omega
    simp only [hv, if_false, hl]

theorem uint16_lt (b : List Nat) (h : ∀ x ∈ b, x < 256) : uint16 b < 65536 := by
  have h0 := getD_lt_of_forall_lt b h 0
  have h1 := getD_lt_of_forall_lt b h 1
  unfold uint16
  omega

theorem headerBuf_forall_lt {σ : Type} (r : Reader σ) (s : σ)
    (h : ∀ x ∈ (r s MSG_HEADER_LEN).data, x < 256) : ∀ x ∈ headerBuf r s, x < 256 := by
  intro x hx
  unfold headerBuf fillBuf at hx
  rcases List.mem_append.mp (List.mem_of_mem_take hx) with hd | hz
  · exact h x hd
  · rw [(List.mem_replicate.mp (List.mem_of_mem_drop hz)).2]
    norm_num

theorem keyLen_le {σ : Type} (m : Message) (r : Reader σ) (s : σ)
    (h : ∀ x ∈ (r s MSG_HEADER_LEN).data, x < 256) :
    0 ≤ (m.deserializeHeader (headerBuf r s)).2.1 ∧
      (m.deserializeHeader (headerBuf r s)).2.1 ≤ 65535 := by
  rw [deserializeHeader_headerBuf]
  have hlt := uint16_lt (slice (headerBuf r s) 2 4)
    (slice_forall_lt _ 2 4 (headerBuf_forall_lt r s h))
  simp only
  omega

/-- What `ReadAlloc` does after a header read without error, when the limit admits
the header and the announced key. -/
theorem ReadAlloc_of_header_ok {σ : Type} (allocLimit : Nat) (m : Message) (r : Reader σ)
    (s : σ) (hlim : 65535 ≤ allocLimit) (hh : (r s MSG_HEADER_LEN).err = none)
    (hk : (m.deserializeHeader (headerBuf r s)).2.1 ≤ 65535) :
    m.ReadAlloc allocLimit r s =
      if (m.deserializeHeader (headerBuf r s)).2.1 > 0 then
        match (r (r s MSG_HEADER_LEN).next (m.deserializeHeader (headerBuf r s)).2.1.toNat).err with
        | some e =>
          ReadRun.returned
            { err := some e, msg := (m.deserializeHeader (headerBuf r s)).1,
              src := (r (r s MSG_HEADER_LEN).next
                (m.deserializeHeader (headerBuf r s)).2.1.toNat).next }
        | none =>
          Message.readValueAlloc allocLimit
            { (m.deserializeHeader (headerBuf r s)).1 with
              Key := fillBuf
                (List.replicate (m.deserializeHeader (headerBuf r s)).2.1.toNat 0)
                (r (r s MSG_HEADER_LEN).next
                  (m.deserializeHeader (headerBuf r s)).2.1.toNat).data }
            r (r (r s MSG_HEADER_LEN).next (m.deserializeHeader (headerBuf r s)).2.1.toNat).next
            (m.deserializeHeader (headerBuf r s)).2.2
      else
        Message.readValueAlloc allocLimit (m.deserializeHeader (headerBuf r s)).1 r
          (r s MSG_HEADER_LEN).next (m.deserializeHeader (headerBuf r s)).2.2 := by
  have h20 : makeBytes allocLimit (MSG_HEADER_LEN : Nat) =
      some (List.replicate MSG_HEADER_LEN 0) := by
    have := makeBytes_of_le allocLimit (MSG_HEADER_LEN : Nat) (by simp [MSG_HEADER_LEN])
      (by simp [MSG_HEADER_LEN]; omega)
    simpa using this
  unfold Message.ReadAlloc
  simp only [h20, List.length_replicate, hh]
  by_cases hpos : (m.deserializeHeader (headerBuf r s)).2.1 > 0
  · have hmk := makeBytes_of_le allocLimit (m.deserializeHeader (headerBuf r s)).2.1
      (by omega) (by omega)
    simp only [headerBuf] at hmk hpos ⊢
    simp only [hpos, if_true, hmk, List.length_replicate]
  · simp only [headerBuf] at hpos ⊢
    simp only [hpos, if_false]

/-- `ReadAlloc` returns what `Read` returns whenever the source delivers bytes and the
announced value length is within the allocation limit (as is the length of a value
that exists). -/
theorem ReadAlloc_eq_Read {σ : Type} (allocLimit : Nat) (m : Message) (r : Reader σ) (s : σ)
    (hlim : 65535 ≤ allocLimit) (hbytes : ∀ x ∈ (r s MSG_HEADER_LEN).data, x < 256)
    (hv : (m.deserializeHeader (headerBuf r s)).2.2 ≤ (allocLimit : Int)) :
    m.ReadAlloc allocLimit r s = ReadRun.returned (m.Read r s) := by
  by_cases hh : (r s MSG_HEADER_LEN).err = none
  · have hkb := keyLen_le m r s hbytes
    have hnl : ¬ (allocLimit : Int) < (m.deserializeHeader (headerBuf r s)).2.2 := by omega
    rw [ReadAlloc_of_header_ok allocLimit m r s hlim hh hkb.2, Read_of_header_ok m r s hh]
    simp only [readValueAlloc_eq, hnl, if_false]
    by_cases hpos : (m.deserializeHeader (headerBuf r s)).2.1 > 0
    · simp only [hpos, if_true]
      by_cases hke : (r (r s MSG_HEADER_LEN).next
          (m.deserializeHeader (headerBuf r s)).2.1.toNat).err = none
      · simp only [hke]
      · obtain ⟨e, he⟩ := Option.ne_none_iff_exists'.mp hke
        simp only [he]
    · simp only [hpos, if_false]
  · obtain ⟨e, he⟩ := Option.ne_none_iff_exists'.mp hh
    have h20 : makeBytes allocLimit (MSG_HEADER_LEN : Nat) =
        some (List.replicate MSG_HEADER_LEN 0) := by
      have := makeBytes_of_le allocLimit (MSG_HEADER_LEN : Nat) (by simp [MSG_HEADER_LEN])
        (by simp [MSG_HEADER_LEN]; omega)
      simpa using this
    unfold Message.ReadAlloc Message.Read
    simp only [h20, List.length_replicate, he]

/-! ## Wire message codec: short payloads and stale fields -/

/-- C5, as stated, fails: after a full header announcing a three-byte key the source
hands over one byte without an error, and Read returns nil with a key made of that
byte and two zero bytes. -/
theorem short_payload_not_an_error :
    (bytesReader shortKeyStream MSG_HEADER_LEN).data.length = 20 ∧
      (Message.zero.deserializeHeader (bytesReader shortKeyStream MSG_HEADER_LEN).data).2.1 = 3 ∧
      (bytesReader (bytesReader shortKeyStream MSG_HEADER_LEN).next 3).data = [97] ∧
      (bytesReader (bytesReader shortKeyStream MSG_HEADER_LEN).next 3).err = none ∧
      ∃ out, Message.zero.ReadAlloc maxAlloc bytesReader shortKeyStream = ReadRun.returned out ∧
        out.err = none ∧ out.msg.Key = [97, 0, 0] :=
  ⟨by decide, by decide, by decide, by decide, _, rfl, by decide, by decide⟩

/-- C5, amended: let the header read return no error and deliver bytes, announcing key
length `k` and value length `v`, and let the allocation limit admit a header and any
key. An error of the key read (made when `k > 0`) is returned at once, after the
header and key reads only. If the key part passes and `0 < v` is within the
allocation limit, an error of the value read is returned. If the key part passes and
`v` is beyond the allocation limit, Read does not return: `make` panics before any
value read, with Value as it was. Whenever Read returns nil it has asked the source
for exactly 20 header bytes, then exactly `k` key bytes in one read if `k > 0`, then
exactly `v` value bytes in one read if `v > 0`, and Key and Value have exactly those
lengths. Whether the source handed over as many bytes as were asked for is not
looked at. -/
theorem payload_read_error_is_returned {σ : Type} (allocLimit : Nat) (m0 : Message)
    (r : Reader σ) (s : σ) (k v : Int) (hlim : 65535 ≤ allocLimit)
    (hbytes : ∀ x ∈ (r s MSG_HEADER_LEN).data, x < 256)
    (hh : (r s MSG_HEADER_LEN).err = none)
    (hkv : (m0.deserializeHeader (headerBuf r s)).2 = (k, v)) :
    (∀ e, 0 < k → (r (r s MSG_HEADER_LEN).next k.toNat).err = some e →
      ∃ out, m0.ReadAlloc allocLimit (recordingReader r) (s, []) = ReadRun.returned out ∧
        out.err = some e ∧ out.src.2 = [MSG_HEADER_LEN, k.toNat]) ∧
    (∀ e, (0 < k → (r (r s MSG_HEADER_LEN).next k.toNat).err = none) → 0 < v →
      v ≤ (allocLimit : Int) →
      (r (if 0 < k then (r (r s MSG_HEADER_LEN).next k.toNat).next
          else (r s MSG_HEADER_LEN).next) v.toNat).err = some e →
      ∃ out, m0.ReadAlloc allocLimit (recordingReader r) (s, []) = ReadRun.returned out ∧
        out.err = some e) ∧
    ((0 < k → (r (r s MSG_HEADER_LEN).next k.toNat).err = none) → (allocLimit : Int) < v →
      ∃ msg src, m0.ReadAlloc allocLimit (recordingReader r) (s, []) =
          ReadRun.panicked msg src ∧
        msg.Value = m0.Value ∧
        src.2 = [MSG_HEADER_LEN] ++ (if 0 < k then [k.toNat] else [])) ∧
    (∀ out, m0.ReadAlloc allocLimit (recordingReader r) (s, []) = ReadRun.returned out →
      out.err = none →
      out.src.2 =
        [MSG_HEADER_LEN] ++ (if 0 < k then [k.toNat] else []) ++
          (if 0 < v then [v.toNat] else []) ∧
      (0 < k → (out.msg.Key.length : Int) = k) ∧
      (0 < v → (out.msg.Value.length : Int) = v) ∧
      v ≤ (allocLimit : Int)) := by
  have hk1 : (m0.deserializeHeader (headerBuf r s)).2.1 = k := by rw [hkv]
  have hv1 : (m0.deserializeHeader (headerBuf r s)).2.2 = v := by rw [hkv]
  have hkb := keyLen_le m0 r s hbytes
  rw [hk1] at hkb
  have hh' : (recordingReader r (s, []) MSG_HEADER_LEN).err = none := hh
  have hrun := ReadAlloc_of_header_ok allocLimit m0 (recordingReader r) (s, []) hlim hh'
    (by rw [headerBuf_recording, hk1]; exact hkb.2)
  rw [headerBuf_recording, hk1, hv1] at hrun
  rw [hrun]
  simp only [readValueAlloc_eq, Message.readValue]
  by_cases hk : 0 < k
  · cases hke : (r (r s MSG_HEADER_LEN).next k.toNat).err with
    | some e1 =>
      simp [hk, hke, recordingReader]
    | none =>
      by_cases hl : (allocLimit : Int) < v
      · have hv : 0 < v := by omega
        simp [hk, hke, hl, hv, recordingReader]
        rw [deserializeHeader_headerBuf]
      · by_cases hv : 0 < v
        · simp [hk, hke, hl, hv, recordingReader, fillBuf_length]
          intro _
          omega
        · simp [hk, hke, hl, hv, recordingReader, fillBuf_length]
          omega
  · by_cases hl : (allocLimit : Int) < v
    · have hv : 0 < v := by omega
      simp [hk, hl, hv, recordingReader]
      rw [deserializeHeader_headerBuf]
    · by_cases hv : 0 < v
      · simp [hk, hl, hv, recordingReader, fillBuf_length]
        intro _
        omega
      · simp [hk, hl, hv, recordingReader, fillBuf_length]
        omega

/-- The amended C5 at a source that ends after a header announcing a three-byte key
(the key read returns EOF and so does Read, after two reads), and at a header
announcing a value of 2^62 bytes (Read panics after the header read alone). -/
theorem payload_read_error_is_returned_witness :
    65535 ≤ maxAlloc ∧ (∀ x ∈ (bytesReader headerOnlyStream MSG_HEADER_LEN).data, x < 256) ∧
      (bytesReader headerOnlyStream MSG_HEADER_LEN).err = none ∧
      (bytesReader (bytesReader headerOnlyStream MSG_HEADER_LEN).next 3).err =
        some IOError.EOF ∧
      (∃ out, Message.zero.ReadAlloc maxAlloc (recordingReader bytesReader)
          (headerOnlyStream, []) = ReadRun.returned out ∧
        out.err = some IOError.EOF ∧ out.src.2 = [MSG_HEADER_LEN, 3]) ∧
      (∃ msg src, Message.zero.ReadAlloc maxAlloc (recordingReader bytesReader)
          (hugeValueStream, []) = ReadRun.panicked msg src ∧
        msg.Value = Message.zero.Value ∧ src.2 = [MSG_HEADER_LEN]) :=
  ⟨by decide, by decide, by decide, by decide,
    (payload_read_error_is_returned maxAlloc Message.zero bytesReader headerOnlyStream 3 0
      (by decide) (by decide) (by decide) (by decide)).1 IOError.EOF (by decide) (by decide),
    (payload_read_error_is_returned maxAlloc Message.zero bytesReader hugeValueStream 0
      (2 ^ 62) (by decide) (by decide) (by decide) (by decide)).2.2.1
      (fun h => absurd h (by decide)) (by decide)⟩

/-- C17, as stated, fails in its "returns no error": a header with KeyLen = 0 that
announces five value bytes the source does not have makes Read return EOF, and so
does a header with ValueLen = 0 that announces three key bytes the source does not
have, whatever the message held before. -/
theorem stale_field_read_can_fail :
    sampleMessage.Key ≠ [] ∧ sampleMessage.Value ≠ [] ∧
      (bytesReader valueOnlyHeaderStream MSG_HEADER_LEN).data = valueOnlyHeaderStream ∧
      uint16 (slice valueOnlyHeaderStream 2 4) = 0 ∧
      (∃ out, sampleMessage.ReadAlloc maxAlloc bytesReader valueOnlyHeaderStream =
          ReadRun.returned out ∧ out.err = some IOError.EOF) ∧
      (bytesReader headerOnlyStream MSG_HEADER_LEN).data = headerOnlyStream ∧
      uint64 (slice headerOnlyStream 4 12) = 0 ∧
      (∃ out, sampleMessage.ReadAlloc maxAlloc bytesReader headerOnlyStream =
          ReadRun.returned out ∧ out.err = some IOError.EOF) :=
  ⟨by decide, by decide, by decide, by decide, ⟨_, rfl, by decide⟩, by decide, by decide,
    ⟨_, rfl, by decide⟩⟩

/-- C17, amended: let the header read return no error and deliver bytes, announcing key
length `k` and value length `v`, and let the allocation limit admit a header and any
key. Whenever Read returns, Op, Status and Expires of the message are those of the
header. If `k = 0`, Key keeps its previous value, and Read returns no error when `v`
is not positive or when `v` is within the allocation limit and the value read returns
none; when `v` is beyond the allocation limit Read does not return (`make` panics),
Key still being the previous one. If `v = 0`, Value keeps its previous value, and Read
returns no error when `k = 0` or the key read returns none. -/
theorem read_keeps_stale_fields {σ : Type} (allocLimit : Nat) (m : Message) (r : Reader σ)
    (s : σ) (k v : Int) (hlim : 65535 ≤ allocLimit)
    (hbytes : ∀ x ∈ (r s MSG_HEADER_LEN).data, x < 256)
    (hh : (r s MSG_HEADER_LEN).err = none)
    (hkv : (m.deserializeHeader (headerBuf r s)).2 = (k, v)) :
    (∀ out, m.ReadAlloc allocLimit r s = ReadRun.returned out →
      out.msg.Op = (headerBuf r s).getD 0 0 ∧ out.msg.Status = (headerBuf r s).getD 1 0 ∧
      out.msg.Expires = uint64 (slice (headerBuf r s) 12 20)) ∧
    (k = 0 →
      (∀ out, m.ReadAlloc allocLimit r s = ReadRun.returned out → out.msg.Key = m.Key) ∧
      ((v ≤ 0 ∨ (v ≤ (allocLimit : Int) ∧
          (r (r s MSG_HEADER_LEN).next v.toNat).err = none)) →
        ∃ out, m.ReadAlloc allocLimit r s = ReadRun.returned out ∧ out.err = none ∧
          out.msg.Key = m.Key) ∧
      ((allocLimit : Int) < v →
        ∃ msg src, m.ReadAlloc allocLimit r s = ReadRun.panicked msg src ∧
          msg.Key = m.Key)) ∧
    (v = 0 →
      (∀ out, m.ReadAlloc allocLimit r s = ReadRun.returned out → out.msg.Value = m.Value) ∧
      ((k = 0 ∨ (r (r s MSG_HEADER_LEN).next k.toNat).err = none) →
        ∃ out, m.ReadAlloc allocLimit r s = ReadRun.returned out ∧ out.err = none ∧
          out.msg.Value = m.Value)) := by
  have hk1 : (m.deserializeHeader (headerBuf r s)).2.1 = k := by rw [hkv]
  have hv1 : (m.deserializeHeader (headerBuf r s)).2.2 = v := by rw [hkv]
  have hkb := keyLen_le m r s hbytes
  rw [hk1] at hkb
  have hrun := ReadAlloc_of_header_ok allocLimit m r s hlim hh (by rw [hk1]; exact hkb.2)
  rw [hk1, hv1] at hrun
  rw [hrun]
  have hd1 : (m.deserializeHeader (headerBuf r s)).1 =
      { m with Op := (headerBuf r s).getD 0 0, Status := (headerBuf r s).getD 1 0,
               Expires := uint64 (slice (headerBuf r s) 12 20) } := by
    rw [deserializeHeader_headerBuf]
  simp only [readValueAlloc_eq, Message.readValue, hd1]
  by_cases hk : 0 < k
  · have hk0 : ¬ k = 0 := by omega
    cases hke : (r (r s MSG_HEADER_LEN).next k.toNat).err with
    | some e1 =>
      simp [hk, hk0, hke]
    | none =>
      by_cases hl : (allocLimit : Int) < v
      · have hv : 0 < v := by omega
        have hv0 : ¬ v = 0 := by omega
        simp [hk, hk0, hke, hl, hv, hv0]
      · by_cases hv : 0 < v
        · have hv0 : ¬ v = 0 := by omega
          simp [hk, hk0, hke, hl, hv, hv0]
        · simp [hk, hk0, hke, hl, hv]
  · have hk0 : k = 0 := by omega
    by_cases hl : (allocLimit : Int) < v
    · have hv : 0 < v := by omega
      have hv0 : ¬ v = 0 := by omega
      simp [hk, hk0, hl, hv, hv0]
    · by_cases hv : 0 < v
      · have hv0 : ¬ v = 0 := by omega
        simp [hk, hk0, hl, hv, hv0]
        intro h
        rcases h with h | h
        · omega
        · exact h.2
      · simp [hk, hk0, hl, hv]

/-- The stale key of C17: the bytes of a message with an empty key, read into a message
that holds the key "abc", leave that key in place, so the round trip is lost; and a
header announcing no key and 2^62 value bytes makes Read panic. -/
theorem read_keeps_stale_fields_witness :
    65535 ≤ maxAlloc ∧
      (∀ x ∈ (bytesReader (emptyKeyMessage.Write bufferWriter []).sink MSG_HEADER_LEN).data,
        x < 256) ∧
      (bytesReader (emptyKeyMessage.Write bufferWriter []).sink MSG_HEADER_LEN).err = none ∧
      sampleMessage.Key ≠ emptyKeyMessage.Key ∧
      (∃ out, sampleMessage.ReadAlloc maxAlloc bytesReader
          (emptyKeyMessage.Write bufferWriter []).sink = ReadRun.returned out ∧
        out.err = none ∧ out.msg.Key = sampleMessage.Key) ∧
      (∃ msg src, sampleMessage.ReadAlloc maxAlloc bytesReader hugeValueStream =
          ReadRun.panicked msg src ∧ msg.Key = sampleMessage.Key) :=
  ⟨by decide, by decide, by decide, by decide,
    ((read_keeps_stale_fields maxAlloc sampleMessage bytesReader
      (emptyKeyMessage.Write bufferWriter []).sink 0 1 (by decide) (by decide) (by decide)
      (by decide)).2.1 rfl).2.1 (Or.inr ⟨by decide, by decide⟩),
    ((read_keeps_stale_fields maxAlloc sampleMessage bytesReader hugeValueStream 0 (2 ^ 62)
      (by decide) (by decide) (by decide) (by decide)).2.1 rfl).2.2 (by decide)⟩

end Tcpkv
